import Mathlib

/-!
# Verification of the salus page-ownership tracker and TEE control plane

Shallow embedding of the core of the `salus` hypervisor sources:

* `riscv-page-tables/src/page_info.rs` — the per-page ownership state machine
  (`PageInfo`) and the sparse per-frame directory (`PageMap`);
* `sbi/src/sbi.rs` — the SBI message codec (`ResetFunction`, `TeeFunction`);
* `src/vm.rs` — the guest registry and the TEE dispatcher (`Guests`, `Vm`).

Rust `u64`/`usize` values are embedded as `Nat` (none of the modelled code
performs wrapping arithmetic), fallible operations return `Except`, and
`&mut self` methods are embedded as explicit state-passing functions that
return the updated state.  Types that live in crates outside the reviewed
sources (`riscv-pages`, `page-collections`, `vm_pages`) are modelled from the
specification and are marked `Modelled from the spec:` in their doc comments.
-/

set_option maxHeartbeats 1000000

namespace Salus

/-- Modelled from the spec: `PageOwnerId` (crate `riscv-pages`, not among the
reviewed sources) identifies a principal that may own pages.  Two identifiers
are distinguished — the hypervisor and the host VM; every other raw value
names a nested guest VM. -/
structure PageOwnerId where
  id : Nat
deriving DecidableEq

def PageOwnerId.hypervisor : PageOwnerId := ⟨0⟩

def PageOwnerId.host : PageOwnerId := ⟨1⟩

/-- Modelled from the spec: `PageOwnerId::new` rejects the two distinguished
identifiers and wraps any other raw value. -/
def PageOwnerId.new (raw : Nat) : Option PageOwnerId :=
  if raw = 0 ∨ raw = 1 then none else some ⟨raw⟩

def PageOwnerId.raw (p : PageOwnerId) : Nat := p.id

/-- The page-tracking errors of `riscv-page-tables`. -/
inductive PageTrackingError where
  | ReservedPage
  | UnownedPage
  | OwnerOverflow
deriving DecidableEq

/-- `MAX_PAGE_OWNERS` from `page_info.rs`: the bound on the ownership chain. -/
def MAX_PAGE_OWNERS : Nat := 3

/-- `PageInfo` from `page_info.rs`.  The `Owned` vector is kept as a list with
its top at the END (Rust pushes and pops at the end of the `ArrayVec`). -/
inductive PageInfo where
  | Reserved
  | Free
  | Owned (owners : List PageOwnerId)
deriving DecidableEq

def PageInfo.new : PageInfo := PageInfo.Free

def PageInfo.new_hypervisor_owned : PageInfo :=
  PageInfo.Owned [PageOwnerId.hypervisor]

def PageInfo.new_reserved : PageInfo := PageInfo.Reserved

/-- `PageInfo::owner`: the top of the ownership stack.  The source indexes
`owners[owners.len() - 1]`, which requires the vector to be nonempty; every
reachable `Owned` state is nonempty (`PageInfo.inv`), and on the unreachable
empty vector the model returns `none`. -/
def PageInfo.owner : PageInfo → Option PageOwnerId
  | .Owned owners => owners.getLast?
  | _ => none

def PageInfo.is_free : PageInfo → Bool
  | .Free => true
  | _ => false

def PageInfo.is_reserved : PageInfo → Bool
  | .Reserved => true
  | _ => false

/-- `PageInfo::pop_owner`.  The source's `expect` asserts the `Owned` vector is
nonempty; the empty-vector branch below is unreachable from any state
satisfying `PageInfo.inv`. -/
def PageInfo.pop_owner : PageInfo → Except PageTrackingError PageOwnerId × PageInfo
  | .Owned owners =>
    if owners.length = 1 then
      (.error .OwnerOverflow, .Owned owners)
    else
      match owners.getLast? with
      | some o => (.ok o, .Owned owners.dropLast)
      | none => (.error .UnownedPage, .Owned owners)
  | .Reserved => (.error .ReservedPage, .Reserved)
  | .Free => (.error .UnownedPage, .Free)

/-- `PageInfo::push_owner`. -/
def PageInfo.push_owner (p : PageInfo) (owner : PageOwnerId) :
    Except PageTrackingError Unit × PageInfo :=
  match p with
  | .Owned owners =>
    if owners.length < MAX_PAGE_OWNERS then
      (.ok (), .Owned (owners ++ [owner]))
    else
      (.error .OwnerOverflow, .Owned owners)
  | .Free => (.ok (), .Owned [owner])
  | .Reserved => (.error .ReservedPage, .Reserved)

/-- Depth of the ownership stack (0 for `Free`/`Reserved`). -/
def PageInfo.depth : PageInfo → Nat
  | .Owned owners => owners.length
  | _ => 0

/-- One unrolling step per unit of fuel of the `pop_owners_while` loop.  Each
successful iteration pops one owner, so `depth` units of fuel are exactly
enough (`popOwnersWhileAux_fuel_ge` shows the result is fuel-independent from
`depth` on). -/
def PageInfo.popOwnersWhileAux (check : PageOwnerId → Bool) :
    Nat → PageInfo → PageInfo
  | 0, p => p
  | fuel + 1, p =>
    match p.owner with
    | none => p
    | some o =>
      if check o then
        match p.pop_owner with
        | (.ok _, p2) => PageInfo.popOwnersWhileAux check fuel p2
        | (.error _, _) => p
      else p

/-- `PageInfo::pop_owners_while`: pop owners from the top while `check` holds
and a pop is legal; never reports an error. -/
def PageInfo.pop_owners_while (p : PageInfo) (check : PageOwnerId → Bool) : PageInfo :=
  PageInfo.popOwnersWhileAux check p.depth p

/-- `PageInfo::find_owner`: first owner from the top of the stack satisfying
`check`. -/
def PageInfo.find_owner (p : PageInfo) (check : PageOwnerId → Bool) :
    Option PageOwnerId :=
  match p with
  | .Owned owners => owners.reverse.find? check
  | _ => none

/-- The `PageInfo` state invariant: an `Owned` ownership stack is nonempty and
never deeper than `MAX_PAGE_OWNERS`. -/
def PageInfo.inv : PageInfo → Prop
  | .Owned owners => owners ≠ [] ∧ owners.length ≤ MAX_PAGE_OWNERS
  | _ => True

instance (p : PageInfo) : Decidable p.inv :=
  match p with
  | .Owned owners =>
    inferInstanceAs (Decidable (owners ≠ [] ∧ owners.length ≤ MAX_PAGE_OWNERS))
  | .Free => isTrue trivial
  | .Reserved => isTrue trivial

/-! ## The hardware memory map and the `PageMap` directory -/

/-- The reserved-region sub-types referenced by `page_info.rs` (declared in
the `HwMemMap` module of `riscv-page-tables`, which is not among the reviewed
sources; the set of other sub-types is irrelevant to the population logic,
which treats them uniformly). -/
inductive HwReservedMemType where
  | FirmwareReserved
  | HypervisorImage
  | HostKernelImage
  | HostInitramfsImage
  | PageMap
deriving DecidableEq

inductive HwMemType where
  | Available
  | Reserved (sub : HwReservedMemType)
deriving DecidableEq

/-- Modelled from the spec: one region of the boot-time hardware memory map
(`HwMemMap`, not among the reviewed sources) — a contiguous run of `numPages`
4 KiB frames whose first frame number is `base`.  `HwMemMap` guarantees the
regions are ordered and non-overlapping (`regionsOrderedFrom 0` below). -/
structure HwMemRegion where
  base : Nat
  numPages : Nat
  memType : HwMemType
deriving DecidableEq

/-- `SparseMapEntry` from `page_info.rs`. -/
structure SparseMapEntry where
  base_pfn : Nat
  num_pages : Nat
  page_map_index : Nat
deriving DecidableEq

inductive PageSize where
  | Size4k
  | Size2M
  | Size1G
  | Size512G
deriving DecidableEq

def PageSize.is_huge : PageSize → Bool
  | .Size4k => false
  | _ => true

/-- Modelled from the spec: a supervisor-physical page address (crate
`riscv-pages`), carried as its 4 KiB frame number (`index()` in the source)
plus the page size it addresses. -/
structure SupervisorPageAddr where
  pfn : Nat
  size : PageSize
deriving DecidableEq

def SupervisorPageAddr.index (a : SupervisorPageAddr) : Nat := a.pfn

/-- `PageMap` from `page_info.rs`: the `PageInfo` array plus the sparse frame
directory. -/
structure PageMap where
  pages : List PageInfo
  sparse_map : List SparseMapEntry
deriving DecidableEq

/-- The per-frame `PageInfo` chosen by the population loop of
`PageMap::populate_from` for a region of the given type (the `match` on
`r.mem_type()`). -/
def regionPageInfo : HwMemType → PageInfo
  | .Available => PageInfo.new
  | .Reserved .HostKernelImage => PageInfo.new_hypervisor_owned
  | .Reserved .HostInitramfsImage => PageInfo.new_hypervisor_owned
  | _ => PageInfo.new_reserved

/-- One iteration of the region loop of `PageMap::populate_from`: possibly
close the current `SparseMapEntry` and start a new one, then append one
`PageInfo` per 4 KiB frame of the region and grow the current entry. -/
def populateStep (st : PageMap × SparseMapEntry) (r : HwMemRegion) :
    PageMap × SparseMapEntry :=
  let pm := st.1
  let cur := st.2
  let next :=
    if cur.base_pfn + cur.num_pages ≠ r.base then
      ({ pm with sparse_map := pm.sparse_map ++ [cur] },
       SparseMapEntry.mk r.base 0 (cur.page_map_index + cur.num_pages))
    else
      (pm, cur)
  ({ next.1 with
      pages := next.1.pages ++ List.replicate r.numPages (regionPageInfo r.memType) },
   { next.2 with num_pages := next.2.num_pages + r.numPages })

/-- `PageMap::populate_from`, embedded over the region list of the `HwMemMap`.
The source `unwrap`s the first region, so the memory map is nonempty in every
reachable call; the `[]` branch below is never reached from `build_from`. -/
def PageMap.populate_from (regions : List HwMemRegion) : PageMap :=
  match regions with
  | [] => { pages := [], sparse_map := [] }
  | r0 :: _ =>
    let res := regions.foldl populateStep
      ({ pages := [], sparse_map := [] }, SparseMapEntry.mk r0.base 0 0)
    { res.1 with sparse_map := res.1.sparse_map ++ [res.2] }

/-- The sparse-map lookup shared by `PageMap::get_map_index`: find the first
entry covering the frame and offset into its slice of the page array. -/
def lookupIdx (entries : List SparseMapEntry) (pfn : Nat) : Option Nat :=
  (entries.find? fun s =>
      decide (s.base_pfn ≤ pfn) && decide (pfn < s.base_pfn + s.num_pages)).map
    fun entry => entry.page_map_index + pfn - entry.base_pfn

/-- `PageMap::get_map_index`. -/
def PageMap.get_map_index (pm : PageMap) (addr : SupervisorPageAddr) : Option Nat :=
  lookupIdx pm.sparse_map addr.index

/-- `PageMap::get`: huge pages are unsupported, otherwise index the page
array through the sparse map. -/
def PageMap.get (pm : PageMap) (addr : SupervisorPageAddr) : Option PageInfo :=
  if addr.size.is_huge then none
  else
    match pm.get_map_index addr with
    | none => none
    | some index => pm.pages[index]?

/-- `PageMap::num_after`. -/
def PageMap.num_after (pm : PageMap) (addr : SupervisorPageAddr) : Option Nat :=
  if addr.size.is_huge then none
  else
    match pm.get_map_index addr with
    | none => none
    | some index => some (pm.pages.length - index)

/-- Specification view of the final sparse map: `buildSparse regs cur` is the
sparse map produced by the region loop started with current entry `cur` —
merge a region contiguous with `cur`, otherwise emit `cur` and open a fresh
entry; the last entry is emitted after the walk. -/
def buildSparse : List HwMemRegion → SparseMapEntry → List SparseMapEntry
  | [], cur => [cur]
  | r :: rs, cur =>
    if cur.base_pfn + cur.num_pages = r.base then
      buildSparse rs { cur with num_pages := cur.num_pages + r.numPages }
    else
      cur :: buildSparse rs
        (SparseMapEntry.mk r.base r.numPages (cur.page_map_index + cur.num_pages))

/-- Specification view of the populated page array: one `PageInfo` per frame,
region by region. -/
def pagesOf : List HwMemRegion → List PageInfo
  | [] => []
  | r :: rs => List.replicate r.numPages (regionPageInfo r.memType) ++ pagesOf rs

/-- Flat index of frame `pfn` in the concatenation of the regions' frame
runs, shifted by `k`; `none` when `pfn` lies in no region. -/
def flatIndexFrom : List HwMemRegion → Nat → Nat → Option Nat
  | [], _, _ => none
  | r :: rs, k, pfn =>
    if r.base ≤ pfn ∧ pfn < r.base + r.numPages then some (k + (pfn - r.base))
    else flatIndexFrom rs (k + r.numPages) pfn

/-- The ordering guarantee of `HwMemMap`: regions are listed in ascending
address order and do not overlap; `lo` is a lower bound on the next base. -/
def regionsOrderedFrom : Nat → List HwMemRegion → Prop
  | _, [] => True
  | lo, r :: rs => lo ≤ r.base ∧ regionsOrderedFrom (r.base + r.numPages) rs

instance instDecRegionsOrderedFrom :
    (lo : Nat) → (l : List HwMemRegion) → Decidable (regionsOrderedFrom lo l)
  | _, [] => isTrue trivial
  | lo, r :: rs =>
    have : Decidable (regionsOrderedFrom (r.base + r.numPages) rs) :=
      instDecRegionsOrderedFrom _ _
    inferInstanceAs (Decidable (lo ≤ r.base ∧ regionsOrderedFrom (r.base + r.numPages) rs))

/-! ## The SBI message codec (`sbi/src/sbi.rs`) -/

/-- `sbi::Error`. -/
inductive Error where
  | InvalidAddress
  | InvalidParam
  | Failed
  | NotSupported
  | UnknownSbiExtension
deriving DecidableEq

/-- `Error::to_code`, as an integer. -/
def Error.to_code : Error → Int
  | .InvalidAddress => -5
  | .InvalidParam => -3
  | .Failed => -1
  | .NotSupported => -2
  | .UnknownSbiExtension => -3

/-- `ResetType`, with `discr` its Rust discriminant (the value of the
`as u64` cast used when emitting registers). -/
inductive ResetType where
  | Shutdown
  | ColdReset
  | WarmReset
deriving DecidableEq

def ResetType.discr : ResetType → Nat
  | .Shutdown => 0
  | .ColdReset => 1
  | .WarmReset => 2

/-- `ResetType::from_reg` (parses register A0). -/
def ResetType.from_reg (a0 : Nat) : Except Error ResetType :=
  match a0 with
  | 0 => .ok .Shutdown
  | 1 => .ok .ColdReset
  | 2 => .ok .WarmReset
  | _ => .error .InvalidParam

/-- `ResetReason`, with `discr` its Rust discriminant. -/
inductive ResetReason where
  | NoReason
  | SystemFailure
deriving DecidableEq

def ResetReason.discr : ResetReason → Nat
  | .NoReason => 0
  | .SystemFailure => 1

/-- `ResetReason::from_reg` (parses register A1; note the source accepts `2`,
not the discriminant `1`, for `SystemFailure`). -/
def ResetReason.from_reg (a1 : Nat) : Except Error ResetReason :=
  match a1 with
  | 0 => .ok .NoReason
  | 2 => .ok .SystemFailure
  | _ => .error .InvalidParam

inductive ResetFunction where
  | Reset (reset_type : ResetType) (reason : ResetReason)
deriving DecidableEq

/-- `ResetFunction::from_regs`: A6 selects the function, the reset type is
parsed from A0 and the reason from A1. -/
def ResetFunction.from_regs (a6 a0 a1 : Nat) : Except Error ResetFunction :=
  match a6 with
  | 0 =>
    match ResetType.from_reg a0 with
    | .error e => .error e
    | .ok t =>
      match ResetReason.from_reg a1 with
      | .error e => .error e
      | .ok r => .ok (.Reset t r)
  | _ => .error .InvalidParam

/-- `ResetFunction::get_a0`: the source emits the REASON in A0. -/
def ResetFunction.get_a0 : ResetFunction → Nat
  | .Reset _ reason => reason.discr

/-- `ResetFunction::get_a1`: the source emits the RESET TYPE in A1. -/
def ResetFunction.get_a1 : ResetFunction → Nat
  | .Reset reset_type _ => reset_type.discr

/-- `TeeFunction` from `sbi.rs`. -/
inductive TeeFunction where
  | TvmCreate (state_page_addr : Nat)
  | TvmDestroy (guest_id : Nat)
  | AddPageTablePages (guest_id page_addr num_pages : Nat)
  | AddPages (guest_id page_addr page_type num_pages gpa : Nat)
      (measure_preserve : Bool)
  | Finalize (guest_id : Nat)
  | Run (guest_id : Nat)
  | RemovePages (guest_id gpa remap_addr num_pages : Nat)
  | GetGuestMeasurement (guest_id measurement_version measurement_type page_addr : Nat)
deriving DecidableEq

/-- `TeeFunction::from_regs`, over the slice of argument registers A0..A6
(`args[i]` is the value of `Ai`; all accesses in the source are in bounds).
Note the `AddPages` arm sets `measure_preserve` to `args[5] == 0`. -/
def TeeFunction.from_regs (args : List Nat) : Except Error TeeFunction :=
  match args.getD 6 0 with
  | 0 => .ok (.TvmCreate (args.getD 0 0))
  | 1 => .ok (.TvmDestroy (args.getD 0 0))
  | 2 => .ok (.AddPageTablePages (args.getD 0 0) (args.getD 1 0) (args.getD 2 0))
  | 3 => .ok (.AddPages (args.getD 0 0) (args.getD 1 0) (args.getD 2 0)
      (args.getD 3 0) (args.getD 4 0) (decide (args.getD 5 0 = 0)))
  | 4 => .ok (.Finalize (args.getD 0 0))
  | 5 => .ok (.Run (args.getD 0 0))
  | 6 => .ok (.RemovePages (args.getD 0 0) (args.getD 1 0) (args.getD 2 0)
      (args.getD 3 0))
  | 7 => .ok (.GetGuestMeasurement (args.getD 0 0) (args.getD 1 0) (args.getD 2 0)
      (args.getD 3 0))
  | _ => .error .InvalidParam

def TeeFunction.a6 : TeeFunction → Nat
  | .TvmCreate _ => 0
  | .TvmDestroy _ => 1
  | .AddPageTablePages _ _ _ => 2
  | .AddPages _ _ _ _ _ _ => 3
  | .Finalize _ => 4
  | .Run _ => 5
  | .RemovePages _ _ _ _ => 6
  | .GetGuestMeasurement _ _ _ _ => 7

def TeeFunction.a0 : TeeFunction → Nat
  | .TvmCreate page_addr => page_addr
  | .TvmDestroy guest_id => guest_id
  | .AddPageTablePages guest_id _ _ => guest_id
  | .AddPages guest_id _ _ _ _ _ => guest_id
  | .Finalize guest_id => guest_id
  | .Run guest_id => guest_id
  | .RemovePages guest_id _ _ _ => guest_id
  | .GetGuestMeasurement guest_id _ _ _ => guest_id

def TeeFunction.a1 : TeeFunction → Nat
  | .AddPageTablePages _ page_addr _ => page_addr
  | .AddPages _ page_addr _ _ _ _ => page_addr
  | .RemovePages _ gpa _ _ => gpa
  | .GetGuestMeasurement _ measurement_version _ _ => measurement_version
  | _ => 0

def TeeFunction.a2 : TeeFunction → Nat
  | .AddPageTablePages _ _ num_pages => num_pages
  | .AddPages _ _ page_type _ _ _ => page_type
  | .RemovePages _ _ remap_addr _ => remap_addr
  | .GetGuestMeasurement _ _ measurement_type _ => measurement_type
  | _ => 0

def TeeFunction.a3 : TeeFunction → Nat
  | .AddPages _ _ _ num_pages _ _ => num_pages
  | .RemovePages _ _ _ num_pages => num_pages
  | .GetGuestMeasurement _ _ _ page_addr => page_addr
  | _ => 0

def TeeFunction.a4 : TeeFunction → Nat
  | .AddPages _ _ _ _ gpa _ => gpa
  | _ => 0

/-- `TeeFunction::a5`: the source emits `1` when `measure_preserve` holds. -/
def TeeFunction.a5 : TeeFunction → Nat
  | .AddPages _ _ _ _ _ measure_preserve => if measure_preserve then 1 else 0
  | _ => 0

/-- The argument-register image of a `TeeFunction`, in the `args` layout
consumed by `TeeFunction.from_regs`. -/
def TeeFunction.regs (f : TeeFunction) : List Nat :=
  [f.a0, f.a1, f.a2, f.a3, f.a4, f.a5, f.a6]

/-! ## Guest registry and TEE dispatcher (`src/vm.rs`)

The dispatcher's control-plane logic (registry lookups, state-variant
validation, registry updates) lives in `vm.rs` and is embedded faithfully.
The payloads it routes around — `GuestRootBuilder` and the nested `Vm` —
live in `vm_pages.rs`, which is not among the reviewed sources; the model
keeps only their control-plane-relevant content (the guest's `PageOwnerId`)
and abstracts every `VmPages` adapter call behind a `VmPagesAdapter`
parameter, so each theorem about the dispatcher holds for EVERY adapter. -/

/-- Modelled from the spec: the builder for a guest under construction
(`GuestRootBuilder` of `vm_pages.rs`); only its owner id is consulted by the
dispatcher. -/
structure GuestRootBuilder where
  page_owner_id : PageOwnerId
deriving DecidableEq

/-- Modelled from the spec: the payload of a running guest (the nested `Vm`
whose `vm_pages.page_owner_id()` the registry consults). -/
structure VmGuest where
  page_owner_id : PageOwnerId
deriving DecidableEq

/-- Modelled from the spec: `Finalize` consumes the builder, producing the VM
object for the same guest (`Vm::new(gbr.create_pages())`); the owner id is
preserved. -/
def GuestRootBuilder.create_pages (grb : GuestRootBuilder) : VmGuest :=
  ⟨grb.page_owner_id⟩

/-- `GuestState` from `vm.rs`: `Init` / `Running` / the transient `Temp`. -/
inductive GuestState where
  | Init (grb : GuestRootBuilder)
  | Running (v : VmGuest)
  | Temp
deriving DecidableEq

/-- `GuestState::page_owner_id`.  The source marks the `Temp` arm
`unreachable!()`; the model returns `none` there, so a `Temp` entry never
matches a lookup — it agrees with the source on every registry without a
`Temp` entry, the only registries any dispatcher call can observe. -/
def GuestState.page_owner_id? : GuestState → Option PageOwnerId
  | .Init grb => some grb.page_owner_id
  | .Running v => some v.page_owner_id
  | .Temp => none

/-- `Guests` from `vm.rs`: the registry vector; `capacity` models the bound
of the backing `PageVec` fixed at creation (`try_reserve` fails beyond it). -/
structure Guests where
  inner : List GuestState
  capacity : Nat
deriving DecidableEq

/-- Index of the first registry entry owned by `pid` (the
`iter().enumerate().find(..)` of `Guests::get_guest_index`). -/
def guestIdx (pid : PageOwnerId) : List GuestState → Option Nat
  | [] => none
  | g :: gs =>
    if g.page_owner_id? = some pid then some 0
    else (guestIdx pid gs).map (· + 1)

/-- `Guests::get_guest_index`. -/
def Guests.get_guest_index (gs : Guests) (guest_id : Nat) : Except Error Nat :=
  match PageOwnerId.new guest_id with
  | none => .error .InvalidParam
  | some pid =>
    match guestIdx pid gs.inner with
    | none => .error .InvalidParam
    | some i => .ok i

/-- `Guests::add`: reserve capacity, then push. -/
def Guests.add (gs : Guests) (g : GuestState) : Except Error Guests :=
  if gs.inner.length < gs.capacity then
    .ok { gs with inner := gs.inner ++ [g] }
  else
    .error .InvalidParam

/-- `Guests::remove`: retain every entry whose owner differs from
`guest_id`.  Note it succeeds whether or not such a guest is present. -/
def Guests.remove (gs : Guests) (guest_id : Nat) : Except Error Guests :=
  match PageOwnerId.new guest_id with
  | none => .error .InvalidParam
  | some pid =>
    .ok { gs with
      inner := gs.inner.filter fun g => !decide (g.page_owner_id? = some pid) }

/-- `Guests::guest_mut`: look the guest up and hand back its index together
with the entry (the embedding of the `&mut` borrow). -/
def Guests.guest_at (gs : Guests) (guest_id : Nat) :
    Except Error (Nat × GuestState) :=
  match gs.get_guest_index guest_id with
  | .error e => .error e
  | .ok i =>
    match gs.inner[i]? with
    | none => .error .InvalidParam
    | some g => .ok (i, g)

/-- `Guests::initializing_guest_mut`: `guest_mut` plus variant validation
(`init_mut().ok_or(InvalidParam)`; the `Temp` arm of `init_mut` is
`unreachable!()` and modelled as the same failure). -/
def Guests.initializing_guest (gs : Guests) (guest_id : Nat) :
    Except Error (Nat × GuestRootBuilder) :=
  match gs.guest_at guest_id with
  | .error e => .error e
  | .ok (i, .Init grb) => .ok (i, grb)
  | .ok _ => .error .InvalidParam

/-- `Guests::running_guest_mut`. -/
def Guests.running_guest (gs : Guests) (guest_id : Nat) :
    Except Error (Nat × VmGuest) :=
  match gs.guest_at guest_id with
  | .error e => .error e
  | .ok (i, .Running v) => .ok (i, v)
  | .ok _ => .error .InvalidParam

/-- The dispatcher-relevant state of a `Vm`: the optional child registry plus
the shared `PageMap` reached through `vm_pages` (CPU state, measurement and
page-table contents are outside the modelled core). -/
structure Vm where
  guests : Option Guests
  pm : PageMap
deriving DecidableEq

/-- Modelled from the spec: `AlignedPageAddr4k::new` (crate `riscv-pages`)
accepts exactly the 4 KiB-aligned physical addresses. -/
def AlignedPageAddr4k.new (addr : Nat) : Option Nat :=
  if addr % 4096 = 0 then some addr else none

/-- Modelled from the spec: the `VmPages` adapter interface of §6 consumed by
the dispatcher (`vm_pages.rs` is not among the reviewed sources).  Every
dispatcher theorem below is quantified over the adapter. -/
structure VmPagesAdapter where
  create_guest_root_builder :
    PageMap → Nat → Except Unit (PageMap × GuestRootBuilder)
  add_pte_pages_builder :
    PageMap → Nat → Nat → GuestRootBuilder → Except Unit (PageMap × GuestRootBuilder)
  add_4k_pages_builder :
    PageMap → Nat → Nat → GuestRootBuilder → Nat → Bool →
      Except Unit (PageMap × GuestRootBuilder)
  remove_4k_pages :
    PageMap → VmGuest → Nat → Nat → Except Unit (PageMap × VmGuest × Nat)
  run_guest : PageMap → VmGuest → PageMap × VmGuest
  execute_with_guest_owned_page : PageMap → Nat → Except Unit PageMap

/-- `Vm::add_guest` (the `TvmCreate` arm). -/
def Vm.add_guest (A : VmPagesAdapter) (vm : Vm) (donor_pages_addr : Nat) :
    Except Error Nat × Vm :=
  match vm.guests with
  | none => (.error .InvalidParam, vm)
  | some _ =>
    match AlignedPageAddr4k.new donor_pages_addr with
    | none => (.error .InvalidAddress, vm)
    | some from_page_addr =>
      match A.create_guest_root_builder vm.pm from_page_addr with
      | .error _ => (.error .InvalidParam, vm)
      | .ok (pm2, guest_builder) =>
        match vm.guests with
        | none => (.error .InvalidParam, { vm with pm := pm2 })
        | some gs =>
          match gs.add (GuestState.Init guest_builder) with
          | .error e => (.error e, { vm with pm := pm2 })
          | .ok gs2 =>
            (.ok guest_builder.page_owner_id.raw,
             { vm with guests := some gs2, pm := pm2 })

/-- `Vm::destroy_guest` (the `TvmDestroy` arm): it only removes matching
registry entries — no page-tracking operation occurs anywhere on this path. -/
def Vm.destroy_guest (vm : Vm) (guest_id : Nat) : Except Error Nat × Vm :=
  match vm.guests with
  | none => (.error .InvalidParam, vm)
  | some gs =>
    match gs.remove guest_id with
    | .error e => (.error e, vm)
    | .ok gs2 => (.ok 0, { vm with guests := some gs2 })

/-- The value `Vm::guest_finalize` swaps back into the vacated slot: `Init`
becomes `Running` (via `Vm::new(gbr.create_pages())`); any other value is put
back unchanged (the `t => t` arm). -/
def finalizeState : GuestState → GuestState
  | .Init gbr => GuestState.Running gbr.create_pages
  | t => t

/-- `Vm::guest_finalize` (the `Finalize` arm): swap the entry out for `Temp`,
convert it with `finalizeState`, and swap the result back in. -/
def Vm.guest_finalize (vm : Vm) (guest_id : Nat) : Except Error Nat × Vm :=
  match vm.guests with
  | none => (.error .InvalidParam, vm)
  | some gs =>
    match gs.guest_at guest_id with
    | .error e => (.error e, vm)
    | .ok (i, g) =>
      (.ok 0,
       { vm with guests := some { gs with inner := gs.inner.set i (finalizeState g) } })

/-- `Vm::guest_run` (the `Run` arm): requires a `Running` guest, then enters
it through the adapter. -/
def Vm.guest_run (A : VmPagesAdapter) (vm : Vm) (guest_id : Nat) :
    Except Error Nat × Vm :=
  match vm.guests with
  | none => (.error .InvalidParam, vm)
  | some gs =>
    match gs.running_guest guest_id with
    | .error e => (.error e, vm)
    | .ok (i, v) =>
      let res := A.run_guest vm.pm v
      (.ok 0,
       { vm with
          guests := some { gs with inner := gs.inner.set i (GuestState.Running res.2) },
          pm := res.1 })

/-- `Vm::guest_add_page_table_pages` (the `AddPageTablePages` arm).  Note the
address alignment check precedes the registry/state validation. -/
def Vm.guest_add_page_table_pages (A : VmPagesAdapter) (vm : Vm)
    (guest_id from_addr num_pages : Nat) : Except Error Nat × Vm :=
  match AlignedPageAddr4k.new from_addr with
  | none => (.error .InvalidAddress, vm)
  | some from_page_addr =>
    match vm.guests with
    | none => (.error .InvalidParam, vm)
    | some gs =>
      match gs.initializing_guest guest_id with
      | .error e => (.error e, vm)
      | .ok (i, grb) =>
        match A.add_pte_pages_builder vm.pm from_page_addr num_pages grb with
        | .error _ => (.error .InvalidAddress, vm)
        | .ok (pm2, grb2) =>
          (.ok 0,
           { vm with
              guests := some { gs with inner := gs.inner.set i (GuestState.Init grb2) },
              pm := pm2 })

/-- `Vm::guest_add_pages` (the `AddPages` arm). -/
def Vm.guest_add_pages (A : VmPagesAdapter) (vm : Vm)
    (guest_id from_addr page_type num_pages to_addr : Nat)
    (measure_preserve : Bool) : Except Error Nat × Vm :=
  if page_type > 3 then (.error .InvalidParam, vm)
  else
    match AlignedPageAddr4k.new from_addr with
    | none => (.error .InvalidAddress, vm)
    | some from_page_addr =>
      match AlignedPageAddr4k.new to_addr with
      | none => (.error .InvalidAddress, vm)
      | some to_page_addr =>
        match vm.guests with
        | none => (.error .InvalidParam, vm)
        | some gs =>
          match gs.initializing_guest guest_id with
          | .error e => (.error e, vm)
          | .ok (i, grb) =>
            match A.add_4k_pages_builder vm.pm from_page_addr num_pages grb
                to_page_addr measure_preserve with
            | .error _ => (.error .InvalidParam, vm)
            | .ok (pm2, grb2) =>
              (.ok num_pages,
               { vm with
                  guests := some { gs with inner := gs.inner.set i (GuestState.Init grb2) },
                  pm := pm2 })

/-- `Vm::guest_rm_pages` (the `RemovePages` arm). -/
def Vm.guest_rm_pages (A : VmPagesAdapter) (vm : Vm)
    (guest_id gpa num_pages : Nat) : Except Error Nat × Vm :=
  match AlignedPageAddr4k.new gpa with
  | none => (.error .InvalidAddress, vm)
  | some from_page_addr =>
    match vm.guests with
    | none => (.error .InvalidParam, vm)
    | some gs =>
      match gs.running_guest guest_id with
      | .error e => (.error e, vm)
      | .ok (i, v) =>
        match A.remove_4k_pages vm.pm v from_page_addr num_pages with
        | .error _ => (.error .InvalidAddress, vm)
        | .ok (pm2, v2, n) =>
          (.ok n,
           { vm with
              guests := some { gs with inner := gs.inner.set i (GuestState.Running v2) },
              pm := pm2 })

/-- `Vm::guest_get_measurement` (the `GetGuestMeasurement` arm). -/
def Vm.guest_get_measurement (A : VmPagesAdapter) (vm : Vm)
    (guest_id measurement_version measurement_type page_addr : Nat) :
    Except Error Nat × Vm :=
  if measurement_version ≠ 1 ∨ measurement_type ≠ 1 ∨
      AlignedPageAddr4k.new page_addr = none then
    (.error .InvalidParam, vm)
  else
    match vm.guests with
    | none => (.error .InvalidParam, vm)
    | some gs =>
      match gs.get_guest_index guest_id with
      | .error e => (.error e, vm)
      | .ok _ =>
        match A.execute_with_guest_owned_page vm.pm page_addr with
        | .error _ => (.error .InvalidAddress, vm)
        | .ok pm2 => (.ok 0, { vm with pm := pm2 })

/-- `Vm::handle_tee_msg`: route a decoded `TeeFunction` to its handler. -/
def Vm.handle_tee_msg (A : VmPagesAdapter) (vm : Vm) (f : TeeFunction) :
    Except Error Nat × Vm :=
  match f with
  | .TvmCreate state_page_addr => vm.add_guest A state_page_addr
  | .TvmDestroy guest_id => vm.destroy_guest guest_id
  | .AddPageTablePages guest_id page_addr num_pages =>
    Vm.guest_add_page_table_pages A vm guest_id page_addr num_pages
  | .AddPages guest_id page_addr page_type num_pages gpa measure_preserve =>
    Vm.guest_add_pages A vm guest_id page_addr page_type num_pages gpa
      measure_preserve
  | .Finalize guest_id => vm.guest_finalize guest_id
  | .Run guest_id => Vm.guest_run A vm guest_id
  | .RemovePages guest_id gpa _remap_addr num_pages =>
    Vm.guest_rm_pages A vm guest_id gpa num_pages
  | .GetGuestMeasurement guest_id mv mt page_addr =>
    Vm.guest_get_measurement A vm guest_id mv mt page_addr

/-- No registry entry is in the transient `Temp` state. -/
def Vm.noTempGuests (vm : Vm) : Prop :=
  match vm.guests with
  | none => True
  | some gs => ∀ g ∈ gs.inner, g ≠ GuestState.Temp

instance (vm : Vm) : Decidable vm.noTempGuests := by
  unfold Vm.noTempGuests
  split
  · exact isTrue trivial
  · infer_instance

/-- Observer: the registry entry the dispatcher resolves `guest_id` to. -/
def Vm.findGuest (vm : Vm) (guest_id : Nat) : Option GuestState :=
  match vm.guests with
  | none => none
  | some gs =>
    match gs.get_guest_index guest_id with
    | .error _ => none
    | .ok i => gs.inner[i]?

/-- An adapter whose operations all succeed without touching the page map;
used to instantiate adapter-quantified theorems on concrete inputs. -/
def trivAdapter : VmPagesAdapter where
  create_guest_root_builder := fun pm _ => .ok (pm, ⟨⟨2⟩⟩)
  add_pte_pages_builder := fun pm _ _ grb => .ok (pm, grb)
  add_4k_pages_builder := fun pm _ _ grb _ _ => .ok (pm, grb)
  remove_4k_pages := fun pm v _ n => .ok (pm, v, n)
  run_guest := fun pm v => (pm, v)
  execute_with_guest_owned_page := fun pm _ => .ok pm

/-- A one-page `PageMap` whose single frame is owned by the host (id 1) with
guest id 2 on top of the chain of custody. -/
def pmC1 : PageMap :=
  { pages := [PageInfo.Owned [⟨1⟩, ⟨2⟩]], sparse_map := [⟨0x80000, 1, 0⟩] }

/-- A caller VM whose registry holds the single running guest with id 2. -/
def vmRun2 : Vm :=
  { guests := some { inner := [GuestState.Running ⟨⟨2⟩⟩], capacity := 4 },
    pm := pmC1 }

/-- A caller VM with an empty (but present) guest registry. -/
def vmEmptyReg : Vm :=
  { guests := some { inner := [], capacity := 4 }, pm := pmC1 }

/-- A caller VM whose registry holds the single initializing guest with
id 2. -/
def vmInit2 : Vm :=
  { guests := some { inner := [GuestState.Init ⟨⟨2⟩⟩], capacity := 4 },
    pm := pmC1 }

/-- A small concrete memory map — an available run, an adjacent host-kernel
image, and a detached firmware region — used to instantiate the `PageMap`
theorems. -/
def regsW : List HwMemRegion :=
  [⟨0x10000, 2, .Available⟩,
   ⟨0x10002, 1, .Reserved .HostKernelImage⟩,
   ⟨0x10010, 1, .Reserved .FirmwareReserved⟩]

instance {ε α : Type} [DecidableEq ε] [DecidableEq α] : DecidableEq (Except ε α) :=
  fun x y =>
    match x, y with
    | .ok a, .ok b =>
      if h : a = b then isTrue (by subst h; rfl)
      else isFalse (fun hc => by cases hc; exact h rfl)
    | .error a, .error b =>
      if h : a = b then isTrue (by subst h; rfl)
      else isFalse (fun hc => by cases hc; exact h rfl)
    | .ok _, .error _ => isFalse (fun hc => by cases hc)
    | .error _, .ok _ => isFalse (fun hc => by cases hc)

/-! ## Lemmas about the `PageInfo` state machine -/

theorem getLast?_some_of_ne_nil {α : Type} :
    ∀ (l : List α), l ≠ [] → ∃ x, l.getLast? = some x
  | [a], _ => ⟨a, rfl⟩
  | _ :: b :: t, _ => getLast?_some_of_ne_nil (b :: t) (by simp)

theorem PageInfo.push_owner_inv (p : PageInfo) (o : PageOwnerId) (h : p.inv) :
    (p.push_owner o).2.inv := by
  cases p with
  | Free => simp [PageInfo.push_owner, PageInfo.inv, MAX_PAGE_OWNERS]
  | Reserved => simp [PageInfo.push_owner, PageInfo.inv]
  | Owned owners =>
    obtain ⟨hne, hlen⟩ := h
    have hlen3 : owners.length ≤ 3 := hlen
    by_cases hl : owners.length < MAX_PAGE_OWNERS
    · have hl3 : owners.length < 3 := hl
      simp only [PageInfo.push_owner, if_pos hl, PageInfo.inv]
      refine ⟨by simp, ?_⟩
      show (owners ++ [o]).length ≤ 3
      simp only [List.length_append, List.length_singleton]
      omega
    · simp only [PageInfo.push_owner, if_neg hl, PageInfo.inv]
      exact ⟨hne, hlen⟩

theorem PageInfo.push_owner_error_unchanged (p : PageInfo) (o : PageOwnerId)
    (e : PageTrackingError) (h : (p.push_owner o).1 = .error e) :
    (p.push_owner o).2 = p := by
  cases p with
  | Free => simp [PageInfo.push_owner] at h
  | Reserved => rfl
  | Owned owners =>
    by_cases hl : owners.length < MAX_PAGE_OWNERS
    · simp [PageInfo.push_owner, if_pos hl] at h
    · simp [PageInfo.push_owner, if_neg hl]

theorem PageInfo.pop_owner_inv (p : PageInfo) (h : p.inv) : p.pop_owner.2.inv := by
  cases p with
  | Free => exact trivial
  | Reserved => exact trivial
  | Owned owners =>
    obtain ⟨hne, hlen⟩ := h
    by_cases h1 : owners.length = 1
    · simpa [PageInfo.pop_owner, if_pos h1, PageInfo.inv] using ⟨hne, hlen⟩
    · have hpos : 0 < owners.length := List.length_pos.mpr hne
      obtain ⟨x, hx⟩ := getLast?_some_of_ne_nil owners hne
      simp only [PageInfo.pop_owner, if_neg h1, hx, PageInfo.inv]
      constructor
      · intro hd
        have hlend := congrArg List.length hd
        simp only [List.length_dropLast, List.length_nil] at hlend
        omega
      · simp only [List.length_dropLast]
        omega

theorem PageInfo.pop_owner_error_unchanged (p : PageInfo)
    (e : PageTrackingError) (h : p.pop_owner.1 = .error e) : p.pop_owner.2 = p := by
  cases p with
  | Free => rfl
  | Reserved => rfl
  | Owned owners =>
    by_cases h1 : owners.length = 1
    · simp [PageInfo.pop_owner, if_pos h1]
    · cases hg : owners.getLast? with
      | none => simp [PageInfo.pop_owner, if_neg h1, hg]
      | some x => simp [PageInfo.pop_owner, if_neg h1, hg] at h

theorem PageInfo.pop_owner_ok_depth (p : PageInfo) (o : PageOwnerId)
    (p2 : PageInfo) (h : p.pop_owner = (.ok o, p2)) : p2.depth < p.depth := by
  cases p with
  | Free => simp [PageInfo.pop_owner] at h
  | Reserved => simp [PageInfo.pop_owner] at h
  | Owned owners =>
    by_cases h1 : owners.length = 1
    · simp [PageInfo.pop_owner, if_pos h1] at h
    · cases hg : owners.getLast? with
      | none => simp [PageInfo.pop_owner, if_neg h1, hg] at h
      | some x =>
        simp only [PageInfo.pop_owner, if_neg h1, hg, Prod.mk.injEq] at h
        have hne : owners ≠ [] := by
          intro hc
          subst hc
          simp [List.getLast?] at hg
        have hpos : 0 < owners.length := List.length_pos.mpr hne
        rw [← h.2]
        simp only [PageInfo.depth, List.length_dropLast]
        omega

theorem PageInfo.owner_none_of_depth_zero (p : PageInfo) (h : p.depth = 0) :
    p.owner = none := by
  cases p with
  | Free => rfl
  | Reserved => rfl
  | Owned owners =>
    have : owners = [] := List.length_eq_zero.mp h
    subst this
    rfl

/-- The loop body is insensitive to extra fuel once the fuel covers the stack
depth, so `pop_owners_while` (which supplies `depth` fuel) computes the exact
fixpoint of the source's unbounded `while` loop. -/
theorem PageInfo.popOwnersWhileAux_fuel_ge (check : PageOwnerId → Bool) :
    ∀ (f1 f2 : Nat) (p : PageInfo), p.depth ≤ f1 → p.depth ≤ f2 →
      PageInfo.popOwnersWhileAux check f1 p = PageInfo.popOwnersWhileAux check f2 p := by
  intro f1
  induction f1 with
  | zero =>
    intro f2 p h1 _
    have hnone := PageInfo.owner_none_of_depth_zero p (Nat.le_zero.mp h1)
    cases f2 with
    | zero => rfl
    | succ b => simp [PageInfo.popOwnersWhileAux, hnone]
  | succ a ih =>
    intro f2 p h1 h2
    cases f2 with
    | zero =>
      have hnone := PageInfo.owner_none_of_depth_zero p (Nat.le_zero.mp h2)
      simp [PageInfo.popOwnersWhileAux, hnone]
    | succ b =>
      simp only [PageInfo.popOwnersWhileAux]
      cases ho : p.owner with
      | none => rfl
      | some o =>
        by_cases hc : check o
        · simp only [if_pos hc]
          cases hpop : p.pop_owner with
          | mk res p2 =>
            cases res with
            | ok u =>
              have hd := PageInfo.pop_owner_ok_depth p u p2 hpop
              exact ih b p2 (by omega) (by omega)
            | error e => rfl
        · simp only [if_neg hc]

theorem PageInfo.popOwnersWhileAux_inv (check : PageOwnerId → Bool) :
    ∀ (fuel : Nat) (p : PageInfo), p.inv →
      (PageInfo.popOwnersWhileAux check fuel p).inv := by
  intro fuel
  induction fuel with
  | zero => intro p h; exact h
  | succ a ih =>
    intro p h
    simp only [PageInfo.popOwnersWhileAux]
    cases ho : p.owner with
    | none => exact h
    | some o =>
      by_cases hc : check o
      · simp only [if_pos hc]
        cases hpop : p.pop_owner with
        | mk res p2 =>
          cases res with
          | ok u =>
            have h2 : p2.inv := by
              have := PageInfo.pop_owner_inv p h
              rwa [hpop] at this
            exact ih p2 h2
          | error e => exact h
      · simp only [if_neg hc]
        exact h

theorem PageInfo.pop_owners_while_inv (p : PageInfo) (check : PageOwnerId → Bool)
    (h : p.inv) : (p.pop_owners_while check).inv :=
  PageInfo.popOwnersWhileAux_inv check p.depth p h

/-- Claim C3: every `PageInfo` operation — `push_owner`, `pop_owner` and
`pop_owners_while` — preserves the state invariants (an `Owned` stack is never
empty and never deeper than `MAX_PAGE_OWNERS = 3`, and a `Reserved` page never
changes state), and every failing operation leaves the `PageInfo` exactly
unchanged. -/
theorem pageinfo_ops_preserve_invariants (p : PageInfo) (o : PageOwnerId)
    (check : PageOwnerId → Bool) (h : p.inv) :
    (p.push_owner o).2.inv ∧
    (∀ e, (p.push_owner o).1 = .error e → (p.push_owner o).2 = p) ∧
    p.pop_owner.2.inv ∧
    (∀ e, p.pop_owner.1 = .error e → p.pop_owner.2 = p) ∧
    (p.pop_owners_while check).inv ∧
    (PageInfo.Reserved.push_owner o).2 = PageInfo.Reserved ∧
    PageInfo.Reserved.pop_owner.2 = PageInfo.Reserved ∧
    PageInfo.Reserved.pop_owners_while check = PageInfo.Reserved :=
  ⟨PageInfo.push_owner_inv p o h,
   fun e he => PageInfo.push_owner_error_unchanged p o e he,
   PageInfo.pop_owner_inv p h,
   fun e he => PageInfo.pop_owner_error_unchanged p e he,
   PageInfo.pop_owners_while_inv p check h,
   rfl, rfl, rfl⟩

theorem pageinfo_ops_preserve_invariants_witness :
    (PageInfo.Owned [⟨0⟩, ⟨1⟩]).inv ∧
    ((PageInfo.Owned [⟨0⟩, ⟨1⟩]).pop_owners_while fun _ => true).inv ∧
    ((PageInfo.Owned [⟨0⟩, ⟨1⟩]).push_owner ⟨2⟩).2.inv :=
  ⟨by decide,
   (pageinfo_ops_preserve_invariants (PageInfo.Owned [⟨0⟩, ⟨1⟩]) ⟨2⟩
      (fun _ => true) (by decide)).2.2.2.2.1,
   (pageinfo_ops_preserve_invariants (PageInfo.Owned [⟨0⟩, ⟨1⟩]) ⟨2⟩
      (fun _ => true) (by decide)).1⟩

/-- Claim C4 counterexample: on a FULL `Owned` stack, `push_owner` fails (the
state is unchanged) and the following `pop_owner` removes the pre-existing top
owner, so push-then-pop is neither the identity nor returns the pushed id. -/
theorem push_then_pop_counterexample :
    (PageInfo.Owned [⟨0⟩, ⟨1⟩, ⟨2⟩]).push_owner ⟨5⟩
      = (.error .OwnerOverflow, PageInfo.Owned [⟨0⟩, ⟨1⟩, ⟨2⟩]) ∧
    ((PageInfo.Owned [⟨0⟩, ⟨1⟩, ⟨2⟩]).push_owner ⟨5⟩).2.pop_owner
      = (.ok ⟨2⟩, PageInfo.Owned [⟨0⟩, ⟨1⟩]) ∧
    PageInfo.Owned [⟨0⟩, ⟨1⟩] ≠ PageInfo.Owned [⟨0⟩, ⟨1⟩, ⟨2⟩] ∧
    (⟨2⟩ : PageOwnerId) ≠ ⟨5⟩ :=
  ⟨rfl, rfl, by decide, by decide⟩

/-- Claim C4 amended: for a `PageInfo` in the `Owned` state whose stack is
nonempty and NOT yet full (`length < MAX_PAGE_OWNERS`), `push_owner o`
followed by `pop_owner` is the identity on the state and the pop returns the
pushed id. -/
theorem push_then_pop_roundtrip (owners : List PageOwnerId) (o : PageOwnerId)
    (h1 : owners ≠ []) (h2 : owners.length < MAX_PAGE_OWNERS) :
    (PageInfo.Owned owners).push_owner o
      = (.ok (), PageInfo.Owned (owners ++ [o])) ∧
    (PageInfo.Owned (owners ++ [o])).pop_owner
      = (.ok o, PageInfo.Owned owners) := by
  have hpos : 0 < owners.length := List.length_pos.mpr h1
  have hlen : (owners ++ [o]).length ≠ 1 := by
    simp only [List.length_append, List.length_singleton]
    omega
  constructor
  · simp [PageInfo.push_owner, if_pos h2]
  · simp [PageInfo.pop_owner, if_neg hlen, List.getLast?_concat, List.dropLast_concat, h1]

theorem push_then_pop_roundtrip_witness :
    ([⟨0⟩] : List PageOwnerId) ≠ [] ∧
    (PageInfo.Owned ([⟨0⟩] ++ [⟨1⟩])).pop_owner
      = (.ok ⟨1⟩, PageInfo.Owned [⟨0⟩]) :=
  ⟨by decide, (push_then_pop_roundtrip [⟨0⟩] ⟨1⟩ (by decide) (by decide)).2⟩

/-! ## Claims about the SBI codec -/

/-- Claim C6: the `AddPages` codec is inverted across its two paths — decode
sets `measure_preserve` to true exactly when register A5 is 0, encode places 1
in A5 exactly when `measure_preserve` is true, and consequently
encode-then-decode returns the same message with `measure_preserve` negated. -/
theorem addpages_codec_measure_preserve_inverted :
    (∀ a0 a1 a2 a3 a4 a5 : Nat,
      TeeFunction.from_regs [a0, a1, a2, a3, a4, a5, 3]
        = .ok (.AddPages a0 a1 a2 a3 a4 (decide (a5 = 0)))) ∧
    (∀ (g pa pt np gpa : Nat) (mp : Bool),
      (TeeFunction.AddPages g pa pt np gpa mp).a5 = if mp then 1 else 0) ∧
    (∀ (g pa pt np gpa : Nat) (mp : Bool),
      TeeFunction.from_regs (TeeFunction.AddPages g pa pt np gpa mp).regs
        = .ok (.AddPages g pa pt np gpa (!mp))) := by
  refine ⟨fun a0 a1 a2 a3 a4 a5 => rfl, fun g pa pt np gpa mp => rfl, ?_⟩
  intro g pa pt np gpa mp
  cases mp <;> rfl

/-- Claim C7: the Reset codec is asymmetric — `from_regs` parses the reset
type from A0 and the reason from A1 while `get_a0` emits the reason and
`get_a1` emits the reset type; consequently any Reset message whose type and
reason discriminants differ does not survive an encode-then-decode
round-trip. -/
theorem reset_codec_asymmetric :
    (∀ (t : ResetType) (r : ResetReason),
      (ResetFunction.Reset t r).get_a0 = r.discr ∧
      (ResetFunction.Reset t r).get_a1 = t.discr) ∧
    (∀ (t : ResetType) (r : ResetReason), t.discr ≠ r.discr →
      ResetFunction.from_regs 0 (ResetFunction.Reset t r).get_a0
          (ResetFunction.Reset t r).get_a1
        ≠ .ok (.Reset t r)) := by
  refine ⟨fun t r => ⟨rfl, rfl⟩, ?_⟩
  intro t r
  cases t <;> cases r <;> decide

theorem reset_codec_asymmetric_witness :
    ResetType.Shutdown.discr ≠ ResetReason.SystemFailure.discr ∧
    ResetFunction.from_regs 0
        (ResetFunction.Reset .Shutdown .SystemFailure).get_a0
        (ResetFunction.Reset .Shutdown .SystemFailure).get_a1
      ≠ .ok (.Reset .Shutdown .SystemFailure) :=
  ⟨by decide, reset_codec_asymmetric.2 .Shutdown .SystemFailure (by decide)⟩

/-! ## Lemmas about the guest registry -/

theorem list_getElem?_set_self {α : Type} :
    ∀ (l : List α) (i : Nat) (a b : α), l[i]? = some b →
      (l.set i a)[i]? = some a
  | [], i, _, _ => by simp
  | _ :: _, 0, _, _ => by simp
  | x :: t, i + 1, a, b => fun h => by
    show (x :: t.set i a)[i + 1]? = some a
    simp only [List.getElem?_cons_succ] at h ⊢
    exact list_getElem?_set_self t i a b h

theorem list_set_getElem?_id {α : Type} :
    ∀ (l : List α) (i : Nat) (a : α), l[i]? = some a → l.set i a = l
  | [], _, _ => by simp
  | x :: t, 0, a => by
    intro h
    simp only [List.getElem?_cons_zero, Option.some.injEq] at h
    subst h
    rfl
  | x :: t, i + 1, a => fun h => by
    show x :: t.set i a = x :: t
    simp only [List.getElem?_cons_succ] at h
    rw [list_set_getElem?_id t i a h]

theorem guestIdx_some (pid : PageOwnerId) :
    ∀ (l : List GuestState) (i : Nat), guestIdx pid l = some i →
      ∃ g, l[i]? = some g ∧ g.page_owner_id? = some pid := by
  intro l
  induction l with
  | nil => intro i h; simp [guestIdx] at h
  | cons g t ih =>
    intro i h
    by_cases hg : g.page_owner_id? = some pid
    · simp only [guestIdx, if_pos hg, Option.some.injEq] at h
      subst h
      exact ⟨g, by simp, hg⟩
    · simp only [guestIdx, if_neg hg] at h
      cases ht : guestIdx pid t with
      | none => rw [ht] at h; simp at h
      | some j =>
        rw [ht] at h
        simp only [Option.map_some', Option.some.injEq] at h
        subst h
        obtain ⟨g2, hget, hpid⟩ := ih j ht
        exact ⟨g2, by simpa using hget, hpid⟩

theorem guestIdx_set (pid : PageOwnerId) :
    ∀ (l : List GuestState) (i : Nat) (g2 : GuestState),
      guestIdx pid l = some i → g2.page_owner_id? = some pid →
      guestIdx pid (l.set i g2) = some i := by
  intro l
  induction l with
  | nil => intro i g2 h _; simp [guestIdx] at h
  | cons g t ih =>
    intro i g2 h h2
    by_cases hg : g.page_owner_id? = some pid
    · simp only [guestIdx, if_pos hg, Option.some.injEq] at h
      subst h
      simp [List.set, guestIdx, h2]
    · simp only [guestIdx, if_neg hg] at h
      cases ht : guestIdx pid t with
      | none => rw [ht] at h; simp at h
      | some j =>
        rw [ht] at h
        simp only [Option.map_some', Option.some.injEq] at h
        subst h
        show guestIdx pid (g :: t.set j g2) = some (j + 1)
        simp [guestIdx, if_neg hg, ih j g2 ht h2]

theorem get_guest_index_ok_elim (gs : Guests) (guest_id : Nat) (i : Nat)
    (h : gs.get_guest_index guest_id = .ok i) :
    ∃ pid, PageOwnerId.new guest_id = some pid ∧ guestIdx pid gs.inner = some i := by
  unfold Guests.get_guest_index at h
  cases hp : PageOwnerId.new guest_id with
  | none => simp [hp] at h
  | some pid =>
    simp only [hp] at h
    cases hi : guestIdx pid gs.inner with
    | none => simp [hi] at h
    | some j =>
      simp only [hi, Except.ok.injEq] at h
      subst h
      exact ⟨pid, rfl, hi⟩

theorem guest_at_intro (gs : Guests) (guest_id i : Nat) (g : GuestState)
    (h1 : gs.get_guest_index guest_id = .ok i) (h2 : gs.inner[i]? = some g) :
    gs.guest_at guest_id = .ok (i, g) := by
  simp only [Guests.guest_at, h1, h2]

theorem guest_at_elim (gs : Guests) (guest_id i : Nat) (g : GuestState)
    (h : gs.guest_at guest_id = .ok (i, g)) :
    gs.get_guest_index guest_id = .ok i ∧ gs.inner[i]? = some g := by
  unfold Guests.guest_at at h
  cases hx : gs.get_guest_index guest_id with
  | error e => simp [hx] at h
  | ok j =>
    simp only [hx] at h
    cases hg : gs.inner[j]? with
    | none => simp [hg] at h
    | some g2 =>
      simp only [hg, Except.ok.injEq, Prod.mk.injEq] at h
      obtain ⟨rfl, rfl⟩ := h
      exact ⟨rfl, hg⟩

theorem findGuest_intro (vm : Vm) (guest_id i : Nat) (gs : Guests) (g : GuestState)
    (h0 : vm.guests = some gs) (h1 : gs.get_guest_index guest_id = .ok i)
    (h2 : gs.inner[i]? = some g) : vm.findGuest guest_id = some g := by
  simp only [Vm.findGuest, h0, h1, h2]

theorem findGuest_elim (vm : Vm) (guest_id : Nat) (g : GuestState)
    (h : vm.findGuest guest_id = some g) :
    ∃ gs i, vm.guests = some gs ∧ gs.get_guest_index guest_id = .ok i ∧
      gs.inner[i]? = some g := by
  unfold Vm.findGuest at h
  cases h0 : vm.guests with
  | none => simp [h0] at h
  | some gs =>
    simp only [h0] at h
    cases h1 : gs.get_guest_index guest_id with
    | error e => simp [h1] at h
    | ok i =>
      simp only [h1] at h
      exact ⟨gs, i, rfl, h1, h⟩

theorem initializing_guest_ok_elim (gs : Guests) (guest_id i : Nat)
    (grb : GuestRootBuilder) (h : gs.initializing_guest guest_id = .ok (i, grb)) :
    gs.guest_at guest_id = .ok (i, .Init grb) := by
  unfold Guests.initializing_guest at h
  cases hx : gs.guest_at guest_id with
  | error e => simp [hx] at h
  | ok pr =>
    obtain ⟨j, g⟩ := pr
    simp only [hx] at h
    cases g with
    | Init grb2 =>
      simp only [Except.ok.injEq, Prod.mk.injEq] at h
      obtain ⟨rfl, rfl⟩ := h
      exact rfl
    | Running v => simp at h
    | Temp => simp at h

theorem running_guest_ok_elim (gs : Guests) (guest_id i : Nat)
    (v : VmGuest) (h : gs.running_guest guest_id = .ok (i, v)) :
    gs.guest_at guest_id = .ok (i, .Running v) := by
  unfold Guests.running_guest at h
  cases hx : gs.guest_at guest_id with
  | error e => simp [hx] at h
  | ok pr =>
    obtain ⟨j, g⟩ := pr
    simp only [hx] at h
    cases g with
    | Init grb => simp at h
    | Running v2 =>
      simp only [Except.ok.injEq, Prod.mk.injEq] at h
      obtain ⟨rfl, rfl⟩ := h
      exact rfl
    | Temp => simp at h

theorem initializing_guest_of_running (gs : Guests) (guest_id i : Nat)
    (v : VmGuest) (h : gs.guest_at guest_id = .ok (i, .Running v)) :
    gs.initializing_guest guest_id = .error .InvalidParam := by
  simp only [Guests.initializing_guest, h]

theorem running_guest_of_init (gs : Guests) (guest_id i : Nat)
    (grb : GuestRootBuilder) (h : gs.guest_at guest_id = .ok (i, .Init grb)) :
    gs.running_guest guest_id = .error .InvalidParam := by
  simp only [Guests.running_guest, h]

theorem finalizeState_page_owner_id (g : GuestState) :
    (finalizeState g).page_owner_id? = g.page_owner_id? := by
  cases g <;> rfl

theorem finalizeState_ne_temp (g : GuestState) (h : g ≠ .Temp) :
    finalizeState g ≠ .Temp := by
  cases g with
  | Init grb => simp [finalizeState]
  | Running v => simp [finalizeState]
  | Temp => exact absurd rfl h

/-! ## Claims C10 and C9: `Finalize` on a running guest, and state gating -/

/-- Claim C10: `Finalize` on a guest already in the `Running` state succeeds
with value 0 and leaves the VM (in particular that guest's state) unchanged;
consequently a second `Finalize` after any successful one also succeeds. -/
theorem finalize_idempotent_on_running (vm : Vm) (guest_id : Nat) :
    (∀ v, vm.findGuest guest_id = some (.Running v) →
      vm.guest_finalize guest_id = (.ok 0, vm)) ∧
    (∀ r vm2, vm.guest_finalize guest_id = (.ok r, vm2) →
      (vm2.guest_finalize guest_id).1 = .ok 0) := by
  constructor
  · intro v h
    obtain ⟨gs, i, h0, h1, h2⟩ := findGuest_elim vm guest_id _ h
    have hat := guest_at_intro gs guest_id i _ h1 h2
    obtain ⟨og, pmx⟩ := vm
    dsimp only at h0
    subst h0
    simp only [Vm.guest_finalize, hat, finalizeState,
      list_set_getElem?_id gs.inner i _ h2]
  · intro r vm2 h
    cases h0 : vm.guests with
    | none => simp only [Vm.guest_finalize, h0] at h; simp at h
    | some gs =>
      cases hat : gs.guest_at guest_id with
      | error e =>
        simp only [Vm.guest_finalize, h0, hat] at h
        simp at h
      | ok pr =>
        obtain ⟨i, g⟩ := pr
        simp only [Vm.guest_finalize, h0, hat, Prod.mk.injEq] at h
        obtain ⟨hr, hvm2⟩ := h
        obtain ⟨h1, h2⟩ := guest_at_elim gs guest_id i g hat
        obtain ⟨pid, hpid, hidx⟩ := get_guest_index_ok_elim gs guest_id i h1
        obtain ⟨g', hg', hpid'⟩ := guestIdx_some pid gs.inner i hidx
        have hgg : g' = g := by
          rw [h2] at hg'
          exact ((Option.some.injEq _ _).mp hg').symm
        subst hgg
        have hpid2 : (finalizeState g').page_owner_id? = some pid := by
          rw [finalizeState_page_owner_id]
          exact hpid'
        have hidx2 :
            guestIdx pid (gs.inner.set i (finalizeState g')) = some i :=
          guestIdx_set pid gs.inner i (finalizeState g') hidx hpid2
        have hget2 :
            (gs.inner.set i (finalizeState g'))[i]? = some (finalizeState g') :=
          list_getElem?_set_self gs.inner i (finalizeState g') g' h2
        subst hvm2
        have hidxA :
            Guests.get_guest_index
              { gs with inner := gs.inner.set i (finalizeState g') } guest_id
              = .ok i := by
          simp only [Guests.get_guest_index, hpid, hidx2]
        have hatA :
            Guests.guest_at
              { gs with inner := gs.inner.set i (finalizeState g') } guest_id
              = .ok (i, finalizeState g') := by
          simp only [Guests.guest_at, hidxA, hget2]
        simp only [Vm.guest_finalize, hatA]

theorem finalize_idempotent_on_running_witness :
    vmRun2.findGuest 2 = some (.Running ⟨⟨2⟩⟩) ∧
    vmRun2.guest_finalize 2 = (.ok 0, vmRun2) :=
  ⟨rfl, (finalize_idempotent_on_running vmRun2 2).1 ⟨⟨2⟩⟩ rfl⟩

/-- Claim C9 counterexample: `AddPageTablePages` invoked on a guest in the
wrong state variant (the guest is `Running`) with an unaligned page address
returns `InvalidAddress`, not `InvalidParam` — the alignment check precedes
the state check — so the claim's "returns InvalidParam" fails as stated. -/
theorem state_gating_counterexample :
    vmRun2.findGuest 2 = some (.Running ⟨⟨2⟩⟩) ∧
    Vm.guest_add_page_table_pages trivAdapter vmRun2 2 0x1001 1
      = (.error .InvalidAddress, vmRun2) ∧
    Error.InvalidAddress ≠ Error.InvalidParam :=
  ⟨rfl, rfl, by decide⟩

/-- Claim C9 amended: `AddPageTablePages` and `AddPages` succeed only while
the target guest is `Initializing` and `Run` succeeds only while it is
`Running`; invoking any of them on a guest in the wrong state variant returns
`InvalidParam` and changes nothing, provided the page-address arguments pass
the 4 KiB alignment check (which precedes the state check and yields
`InvalidAddress` otherwise, also changing nothing).  Quantified over every
`VmPages` adapter. -/
theorem state_gating_amended (A : VmPagesAdapter) (vm : Vm) (guest_id : Nat) :
    (∀ v from_addr num_pages, vm.findGuest guest_id = some (.Running v) →
      from_addr % 4096 = 0 →
      Vm.guest_add_page_table_pages A vm guest_id from_addr num_pages
        = (.error .InvalidParam, vm)) ∧
    (∀ v from_addr page_type num_pages to_addr mp,
      vm.findGuest guest_id = some (.Running v) →
      from_addr % 4096 = 0 → to_addr % 4096 = 0 → page_type ≤ 3 →
      Vm.guest_add_pages A vm guest_id from_addr page_type num_pages to_addr mp
        = (.error .InvalidParam, vm)) ∧
    (∀ grb, vm.findGuest guest_id = some (.Init grb) →
      Vm.guest_run A vm guest_id = (.error .InvalidParam, vm)) ∧
    (∀ from_addr num_pages m,
      (Vm.guest_add_page_table_pages A vm guest_id from_addr num_pages).1 = .ok m →
      ∃ grb, vm.findGuest guest_id = some (.Init grb)) ∧
    (∀ from_addr page_type num_pages to_addr mp m,
      (Vm.guest_add_pages A vm guest_id from_addr page_type num_pages to_addr mp).1
        = .ok m →
      ∃ grb, vm.findGuest guest_id = some (.Init grb)) ∧
    (∀ m, (Vm.guest_run A vm guest_id).1 = .ok m →
      ∃ v, vm.findGuest guest_id = some (.Running v)) := by
  refine ⟨?_, ?_, ?_, ?_, ?_, ?_⟩
  · intro v from_addr num_pages h hal
    obtain ⟨gs, i, h0, h1, h2⟩ := findGuest_elim vm guest_id _ h
    have hat := guest_at_intro gs guest_id i _ h1 h2
    have hinit := initializing_guest_of_running gs guest_id i v hat
    simp only [Vm.guest_add_page_table_pages, AlignedPageAddr4k.new, hal,
      if_pos, h0, hinit]
  · intro v from_addr page_type num_pages to_addr mp h hal1 hal2 hpt
    obtain ⟨gs, i, h0, h1, h2⟩ := findGuest_elim vm guest_id _ h
    have hat := guest_at_intro gs guest_id i _ h1 h2
    have hinit := initializing_guest_of_running gs guest_id i v hat
    have hpt2 : ¬page_type > 3 := by omega
    simp only [Vm.guest_add_pages, if_neg hpt2, AlignedPageAddr4k.new, hal1,
      hal2, if_pos, h0, hinit]
  · intro grb h
    obtain ⟨gs, i, h0, h1, h2⟩ := findGuest_elim vm guest_id _ h
    have hat := guest_at_intro gs guest_id i _ h1 h2
    have hrun := running_guest_of_init gs guest_id i grb hat
    simp only [Vm.guest_run, h0, hrun]
  · intro from_addr num_pages m h
    cases hal : AlignedPageAddr4k.new from_addr with
    | none => simp only [Vm.guest_add_page_table_pages, hal] at h; simp at h
    | some fpa =>
      cases h0 : vm.guests with
      | none =>
        simp only [Vm.guest_add_page_table_pages, hal, h0] at h
        simp at h
      | some gs =>
        cases hinit : gs.initializing_guest guest_id with
        | error e =>
          simp only [Vm.guest_add_page_table_pages, hal, h0, hinit] at h
          simp at h
        | ok pr =>
          obtain ⟨i, grb⟩ := pr
          have hat := initializing_guest_ok_elim gs guest_id i grb hinit
          obtain ⟨h1, h2⟩ := guest_at_elim gs guest_id i _ hat
          exact ⟨grb, findGuest_intro vm guest_id i gs _ h0 h1 h2⟩
  · intro from_addr page_type num_pages to_addr mp m h
    by_cases hpt : page_type > 3
    · simp only [Vm.guest_add_pages, if_pos hpt] at h
      simp at h
    · cases hal1 : AlignedPageAddr4k.new from_addr with
      | none =>
        simp only [Vm.guest_add_pages, if_neg hpt, hal1] at h
        simp at h
      | some fpa =>
        cases hal2 : AlignedPageAddr4k.new to_addr with
        | none =>
          simp only [Vm.guest_add_pages, if_neg hpt, hal1, hal2] at h
          simp at h
        | some tpa =>
          cases h0 : vm.guests with
          | none =>
            simp only [Vm.guest_add_pages, if_neg hpt, hal1, hal2, h0] at h
            simp at h
          | some gs =>
            cases hinit : gs.initializing_guest guest_id with
            | error e =>
              simp only [Vm.guest_add_pages, if_neg hpt, hal1, hal2, h0,
                hinit] at h
              simp at h
            | ok pr =>
              obtain ⟨i, grb⟩ := pr
              have hat := initializing_guest_ok_elim gs guest_id i grb hinit
              obtain ⟨h1, h2⟩ := guest_at_elim gs guest_id i _ hat
              exact ⟨grb, findGuest_intro vm guest_id i gs _ h0 h1 h2⟩
  · intro m h
    cases h0 : vm.guests with
    | none => simp only [Vm.guest_run, h0] at h; simp at h
    | some gs =>
      cases hrun : gs.running_guest guest_id with
      | error e =>
        simp only [Vm.guest_run, h0, hrun] at h
        simp at h
      | ok pr =>
        obtain ⟨i, v⟩ := pr
        have hat := running_guest_ok_elim gs guest_id i v hrun
        obtain ⟨h1, h2⟩ := guest_at_elim gs guest_id i _ hat
        exact ⟨v, findGuest_intro vm guest_id i gs _ h0 h1 h2⟩

theorem state_gating_amended_witness :
    vmRun2.findGuest 2 = some (.Running ⟨⟨2⟩⟩) ∧ (0x2000 : Nat) % 4096 = 0 ∧
    Vm.guest_add_page_table_pages trivAdapter vmRun2 2 0x2000 1
      = (.error .InvalidParam, vmRun2) :=
  ⟨rfl, by decide,
   (state_gating_amended trivAdapter vmRun2 2).1 ⟨⟨2⟩⟩ 0x2000 1 rfl (by decide)⟩

/-! ## Claim C8: the transient state is never observable -/

theorem guests_add_ok_elim (gs : Guests) (g : GuestState) (gs2 : Guests)
    (h : gs.add g = .ok gs2) : gs2.inner = gs.inner ++ [g] := by
  unfold Guests.add at h
  by_cases hc : gs.inner.length < gs.capacity
  · simp only [if_pos hc, Except.ok.injEq] at h
    subst h
    rfl
  · simp [if_neg hc] at h

theorem guests_remove_ok_elim (gs : Guests) (guest_id : Nat) (gs2 : Guests)
    (h : gs.remove guest_id = .ok gs2) :
    ∃ pid, gs2.inner
      = gs.inner.filter fun g => !decide (g.page_owner_id? = some pid) := by
  unfold Guests.remove at h
  cases hp : PageOwnerId.new guest_id with
  | none => simp [hp] at h
  | some pid =>
    simp only [hp, Except.ok.injEq] at h
    subst h
    exact ⟨pid, rfl⟩

theorem noTemp_mem_set {l : List GuestState} {i : Nat} {g2 : GuestState}
    (h : ∀ g ∈ l, g ≠ GuestState.Temp) (h2 : g2 ≠ GuestState.Temp) :
    ∀ g ∈ l.set i g2, g ≠ GuestState.Temp := by
  intro g hm
  rcases List.mem_or_eq_of_mem_set hm with h3 | rfl
  · exact h g h3
  · exact h2

theorem noTemp_entries (vm : Vm) (gs : Guests) (h : vm.noTempGuests)
    (h0 : vm.guests = some gs) : ∀ g ∈ gs.inner, g ≠ GuestState.Temp := by
  unfold Vm.noTempGuests at h
  rw [h0] at h
  exact h

theorem mem_of_getElem?_some {α : Type} {l : List α} {i : Nat} {a : α}
    (h : l[i]? = some a) : a ∈ l := by
  have : l.get? i = some a := by rwa [List.get?_eq_getElem?]
  exact List.get?_mem this

theorem noTemp_add_guest (A : VmPagesAdapter) (vm : Vm) (donor : Nat)
    (h : vm.noTempGuests) : (vm.add_guest A donor).2.noTempGuests := by
  cases h0 : vm.guests with
  | none => simp only [Vm.add_guest, h0]; exact h
  | some gs =>
    cases hal : AlignedPageAddr4k.new donor with
    | none => simp only [Vm.add_guest, h0, hal]; exact h
    | some fpa =>
      cases hcr : A.create_guest_root_builder vm.pm fpa with
      | error u => simp only [Vm.add_guest, h0, hal, hcr]; exact h
      | ok pr =>
        obtain ⟨pm2, gb⟩ := pr
        cases hadd : gs.add (GuestState.Init gb) with
        | error e =>
          simp only [Vm.add_guest, h0, hal, hcr, hadd]
          exact noTemp_entries vm gs h h0
        | ok gs2 =>
          simp only [Vm.add_guest, h0, hal, hcr, hadd]
          show ∀ g ∈ gs2.inner, g ≠ GuestState.Temp
          rw [guests_add_ok_elim gs _ gs2 hadd]
          intro g hm
          rcases List.mem_append.mp hm with h3 | h3
          · exact noTemp_entries vm gs h h0 g h3
          · simp only [List.mem_singleton] at h3
            subst h3
            simp

theorem noTemp_destroy_guest (vm : Vm) (guest_id : Nat)
    (h : vm.noTempGuests) : (vm.destroy_guest guest_id).2.noTempGuests := by
  cases h0 : vm.guests with
  | none => simp only [Vm.destroy_guest, h0]; exact h
  | some gs =>
    cases hrm : gs.remove guest_id with
    | error e => simp only [Vm.destroy_guest, h0, hrm]; exact h
    | ok gs2 =>
      simp only [Vm.destroy_guest, h0, hrm]
      show ∀ g ∈ gs2.inner, g ≠ GuestState.Temp
      obtain ⟨pid, hf⟩ := guests_remove_ok_elim gs guest_id gs2 hrm
      rw [hf]
      intro g hm
      exact noTemp_entries vm gs h h0 g (List.mem_of_mem_filter hm)

theorem noTemp_guest_finalize (vm : Vm) (guest_id : Nat)
    (h : vm.noTempGuests) : (vm.guest_finalize guest_id).2.noTempGuests := by
  cases h0 : vm.guests with
  | none => simp only [Vm.guest_finalize, h0]; exact h
  | some gs =>
    cases hat : gs.guest_at guest_id with
    | error e => simp only [Vm.guest_finalize, h0, hat]; exact h
    | ok pr =>
      obtain ⟨i, g⟩ := pr
      simp only [Vm.guest_finalize, h0, hat]
      show ∀ g2 ∈ gs.inner.set i (finalizeState g), g2 ≠ GuestState.Temp
      obtain ⟨h1, h2⟩ := guest_at_elim gs guest_id i g hat
      have hgmem : g ∈ gs.inner := mem_of_getElem?_some h2
      have hgne : g ≠ GuestState.Temp := noTemp_entries vm gs h h0 g hgmem
      exact noTemp_mem_set (noTemp_entries vm gs h h0)
        (finalizeState_ne_temp g hgne)

theorem noTemp_guest_run (A : VmPagesAdapter) (vm : Vm) (guest_id : Nat)
    (h : vm.noTempGuests) : (Vm.guest_run A vm guest_id).2.noTempGuests := by
  cases h0 : vm.guests with
  | none => simp only [Vm.guest_run, h0]; exact h
  | some gs =>
    cases hrun : gs.running_guest guest_id with
    | error e => simp only [Vm.guest_run, h0, hrun]; exact h
    | ok pr =>
      obtain ⟨i, v⟩ := pr
      simp only [Vm.guest_run, h0, hrun]
      show ∀ g2 ∈ gs.inner.set i (GuestState.Running (A.run_guest vm.pm v).2),
        g2 ≠ GuestState.Temp
      exact noTemp_mem_set (noTemp_entries vm gs h h0) (by simp)

theorem noTemp_guest_add_page_table_pages (A : VmPagesAdapter) (vm : Vm)
    (guest_id from_addr num_pages : Nat) (h : vm.noTempGuests) :
    (Vm.guest_add_page_table_pages A vm guest_id from_addr
      num_pages).2.noTempGuests := by
  cases hal : AlignedPageAddr4k.new from_addr with
  | none => simp only [Vm.guest_add_page_table_pages, hal]; exact h
  | some fpa =>
    cases h0 : vm.guests with
    | none => simp only [Vm.guest_add_page_table_pages, hal, h0]; exact h
    | some gs =>
      cases hinit : gs.initializing_guest guest_id with
      | error e =>
        simp only [Vm.guest_add_page_table_pages, hal, h0, hinit]; exact h
      | ok pr =>
        obtain ⟨i, grb⟩ := pr
        cases hA : A.add_pte_pages_builder vm.pm fpa num_pages grb with
        | error u =>
          simp only [Vm.guest_add_page_table_pages, hal, h0, hinit, hA]
          exact h
        | ok pr2 =>
          obtain ⟨pm2, grb2⟩ := pr2
          simp only [Vm.guest_add_page_table_pages, hal, h0, hinit, hA]
          show ∀ g2 ∈ gs.inner.set i (GuestState.Init grb2),
            g2 ≠ GuestState.Temp
          exact noTemp_mem_set (noTemp_entries vm gs h h0) (by simp)

theorem noTemp_guest_add_pages (A : VmPagesAdapter) (vm : Vm)
    (guest_id from_addr page_type num_pages to_addr : Nat) (mp : Bool)
    (h : vm.noTempGuests) :
    (Vm.guest_add_pages A vm guest_id from_addr page_type num_pages to_addr
      mp).2.noTempGuests := by
  by_cases hpt : page_type > 3
  · simp only [Vm.guest_add_pages, if_pos hpt]
    exact h
  · cases hal1 : AlignedPageAddr4k.new from_addr with
    | none => simp only [Vm.guest_add_pages, if_neg hpt, hal1]; exact h
    | some fpa =>
      cases hal2 : AlignedPageAddr4k.new to_addr with
      | none => simp only [Vm.guest_add_pages, if_neg hpt, hal1, hal2]; exact h
      | some tpa =>
        cases h0 : vm.guests with
        | none =>
          simp only [Vm.guest_add_pages, if_neg hpt, hal1, hal2, h0]; exact h
        | some gs =>
          cases hinit : gs.initializing_guest guest_id with
          | error e =>
            simp only [Vm.guest_add_pages, if_neg hpt, hal1, hal2, h0, hinit]
            exact h
          | ok pr =>
            obtain ⟨i, grb⟩ := pr
            cases hA : A.add_4k_pages_builder vm.pm fpa num_pages grb tpa mp with
            | error u =>
              simp only [Vm.guest_add_pages, if_neg hpt, hal1, hal2, h0, hinit,
                hA]
              exact h
            | ok pr2 =>
              obtain ⟨pm2, grb2⟩ := pr2
              simp only [Vm.guest_add_pages, if_neg hpt, hal1, hal2, h0, hinit,
                hA]
              show ∀ g2 ∈ gs.inner.set i (GuestState.Init grb2),
                g2 ≠ GuestState.Temp
              exact noTemp_mem_set (noTemp_entries vm gs h h0) (by simp)

theorem noTemp_guest_rm_pages (A : VmPagesAdapter) (vm : Vm)
    (guest_id gpa num_pages : Nat) (h : vm.noTempGuests) :
    (Vm.guest_rm_pages A vm guest_id gpa num_pages).2.noTempGuests := by
  cases hal : AlignedPageAddr4k.new gpa with
  | none => simp only [Vm.guest_rm_pages, hal]; exact h
  | some fpa =>
    cases h0 : vm.guests with
    | none => simp only [Vm.guest_rm_pages, hal, h0]; exact h
    | some gs =>
      cases hrun : gs.running_guest guest_id with
      | error e => simp only [Vm.guest_rm_pages, hal, h0, hrun]; exact h
      | ok pr =>
        obtain ⟨i, v⟩ := pr
        cases hA : A.remove_4k_pages vm.pm v fpa num_pages with
        | error u =>
          simp only [Vm.guest_rm_pages, hal, h0, hrun, hA]
          exact h
        | ok pr2 =>
          obtain ⟨pm2, v2, n⟩ := pr2
          simp only [Vm.guest_rm_pages, hal, h0, hrun, hA]
          show ∀ g2 ∈ gs.inner.set i (GuestState.Running v2),
            g2 ≠ GuestState.Temp
          exact noTemp_mem_set (noTemp_entries vm gs h h0) (by simp)

theorem noTemp_guest_get_measurement (A : VmPagesAdapter) (vm : Vm)
    (guest_id mv mt page_addr : Nat) (h : vm.noTempGuests) :
    (Vm.guest_get_measurement A vm guest_id mv mt
      page_addr).2.noTempGuests := by
  by_cases hchk : mv ≠ 1 ∨ mt ≠ 1 ∨ AlignedPageAddr4k.new page_addr = none
  · simp only [Vm.guest_get_measurement, if_pos hchk]
    exact h
  · cases h0 : vm.guests with
    | none => simp only [Vm.guest_get_measurement, if_neg hchk, h0]; exact h
    | some gs =>
      cases hi : gs.get_guest_index guest_id with
      | error e =>
        simp only [Vm.guest_get_measurement, if_neg hchk, h0, hi]; exact h
      | ok i =>
        cases hA : A.execute_with_guest_owned_page vm.pm page_addr with
        | error u =>
          simp only [Vm.guest_get_measurement, if_neg hchk, h0, hi, hA]
          exact h
        | ok pm2 =>
          simp only [Vm.guest_get_measurement, if_neg hchk, h0, hi, hA]
          exact noTemp_entries vm gs h h0

/-- Claim C8: no externally observable operation witnesses the transient
(`Temp`) guest state — if every registry entry is `Init` or `Running` before a
TEE dispatcher call, the same holds after it completes, for every `VmPages`
adapter; in particular `guest_finalize` always swaps a non-`Temp` value back
into the slot it temporarily vacated, whatever (reachable) state that slot
held. -/
theorem dispatcher_no_transient (A : VmPagesAdapter) (vm : Vm)
    (f : TeeFunction) (h : vm.noTempGuests) :
    (Vm.handle_tee_msg A vm f).2.noTempGuests ∧
    (∀ guest_id, (vm.guest_finalize guest_id).2.noTempGuests) := by
  refine ⟨?_, fun guest_id => noTemp_guest_finalize vm guest_id h⟩
  cases f with
  | TvmCreate donor => exact noTemp_add_guest A vm donor h
  | TvmDestroy guest_id => exact noTemp_destroy_guest vm guest_id h
  | AddPageTablePages guest_id page_addr num_pages =>
    exact noTemp_guest_add_page_table_pages A vm guest_id page_addr num_pages h
  | AddPages guest_id page_addr page_type num_pages gpa mp =>
    exact noTemp_guest_add_pages A vm guest_id page_addr page_type num_pages
      gpa mp h
  | Finalize guest_id => exact noTemp_guest_finalize vm guest_id h
  | Run guest_id => exact noTemp_guest_run A vm guest_id h
  | RemovePages guest_id gpa remap num_pages =>
    exact noTemp_guest_rm_pages A vm guest_id gpa num_pages h
  | GetGuestMeasurement guest_id mv mt page_addr =>
    exact noTemp_guest_get_measurement A vm guest_id mv mt page_addr h

theorem dispatcher_no_transient_witness :
    vmInit2.noTempGuests ∧
    (Vm.handle_tee_msg trivAdapter vmInit2 (.Finalize 2)).2.noTempGuests :=
  ⟨by decide,
   (dispatcher_no_transient trivAdapter vmInit2 (.Finalize 2) (by decide)).1⟩

/-! ## Claim C1: `TvmDestroy` -/

/-- Claim C1 counterexample: `TvmDestroy` succeeds (value 0) on a registry
that contains NO guest with the requested id, refuting "succeeds only if a
guest with owner id belongs to the caller's registry"; and destroying a guest
that is present leaves the `PageMap` completely untouched — the page whose
ownership stack has the destroyed guest's id (2) on top still has it on top
afterwards, so no `pop_owners_while` pass over the `PageMap` occurs. -/
theorem destroy_guest_counterexample :
    (vmEmptyReg.destroy_guest 5).1 = .ok 0 ∧
    vmEmptyReg.findGuest 5 = none ∧
    vmRun2.findGuest 2 = some (.Running ⟨⟨2⟩⟩) ∧
    (vmRun2.destroy_guest 2).1 = .ok 0 ∧
    (vmRun2.destroy_guest 2).2.pm = pmC1 ∧
    pmC1.pages[0]? = some (PageInfo.Owned [⟨1⟩, ⟨2⟩]) ∧
    (PageInfo.Owned [⟨1⟩, ⟨2⟩]).owner = some ⟨2⟩ :=
  ⟨rfl, rfl, rfl, rfl, rfl, rfl, rfl⟩

/-- Claim C1 amended: `TvmDestroy(id)` succeeds exactly when the caller holds
a guest registry and `id` is a valid guest `PageOwnerId` — whether or not such
a guest is present; on success it removes every registry entry whose owner id
equals `id`, and performs no page-ownership change whatsoever (the `PageMap`
is untouched; `pop_owners_while` is never invoked on this path). -/
theorem destroy_guest_amended (vm : Vm) (guest_id : Nat) :
    (vm.destroy_guest guest_id).2.pm = vm.pm ∧
    ((∃ n, (vm.destroy_guest guest_id).1 = .ok n) ↔
      (∃ gs, vm.guests = some gs) ∧
      (∃ pid, PageOwnerId.new guest_id = some pid)) ∧
    (∀ gs pid, vm.guests = some gs → PageOwnerId.new guest_id = some pid →
      (vm.destroy_guest guest_id).2.guests
        = some { gs with inner := gs.inner.filter (fun g => !decide (g.page_owner_id? = some pid)) }) := by
  cases h0 : vm.guests with
  | none =>
    refine ⟨by simp only [Vm.destroy_guest, h0], ?_, ?_⟩
    · constructor
      · rintro ⟨n, hn⟩
        simp only [Vm.destroy_guest, h0] at hn
        simp at hn
      · rintro ⟨⟨gs, hgs⟩, _⟩
        exact absurd hgs (by simp)
    · intro gs pid hgs _
      exact absurd hgs (by simp)
  | some gs0 =>
    cases hp : PageOwnerId.new guest_id with
    | none =>
      refine ⟨by simp only [Vm.destroy_guest, Guests.remove, h0, hp], ?_, ?_⟩
      · constructor
        · rintro ⟨n, hn⟩
          simp only [Vm.destroy_guest, Guests.remove, h0, hp] at hn
          simp at hn
        · rintro ⟨_, pid, hpid⟩
          exact absurd hpid (by simp)
      · intro gs pid _ hpid
        exact absurd hpid (by simp)
    | some pid0 =>
      refine ⟨by simp only [Vm.destroy_guest, Guests.remove, h0, hp], ?_, ?_⟩
      · constructor
        · intro _
          exact ⟨⟨gs0, rfl⟩, ⟨pid0, rfl⟩⟩
        · intro _
          exact ⟨0, by simp only [Vm.destroy_guest, Guests.remove, h0, hp]⟩
      · intro gs pid hgs hpid
        have hg : gs0 = gs := by injection hgs
        have hpp : pid0 = pid := by injection hpid
        subst hg
        subst hpp
        simp only [Vm.destroy_guest, Guests.remove, h0, hp]

theorem destroy_guest_amended_witness :
    (vmRun2.destroy_guest 2).2.guests
      = some { inner := [GuestState.Running ⟨⟨2⟩⟩].filter (fun g => !decide (g.page_owner_id? = some ⟨2⟩)), capacity := 4 } ∧
    (vmRun2.destroy_guest 2).2.pm = vmRun2.pm :=
  ⟨(destroy_guest_amended vmRun2 2).2.2 ⟨[GuestState.Running ⟨⟨2⟩⟩], 4⟩ ⟨2⟩
      rfl rfl,
   (destroy_guest_amended vmRun2 2).1⟩

/-! ## The `PageMap` population: claims C2 and C5 -/

theorem foldl_populateStep_pages :
    ∀ (regs : List HwMemRegion) (pm : PageMap) (cur : SparseMapEntry),
      ((regs.foldl populateStep (pm, cur)).1).pages = pm.pages ++ pagesOf regs := by
  intro regs
  induction regs with
  | nil => intro pm cur; simp [pagesOf]
  | cons r rs ih =>
    intro pm cur
    simp only [List.foldl_cons]
    by_cases hc : cur.base_pfn + cur.num_pages ≠ r.base
    · have hstep : populateStep (pm, cur) r =
          ({ pm with
              sparse_map := pm.sparse_map ++ [cur],
              pages := pm.pages ++ List.replicate r.numPages (regionPageInfo r.memType) },
           { base_pfn := r.base, num_pages := 0 + r.numPages,
             page_map_index := cur.page_map_index + cur.num_pages }) := by
        simp [populateStep, if_pos hc]
      rw [hstep, ih]
      simp [pagesOf, List.append_assoc]
    · have hstep : populateStep (pm, cur) r =
          ({ pm with
              pages := pm.pages ++ List.replicate r.numPages (regionPageInfo r.memType) },
           { cur with num_pages := cur.num_pages + r.numPages }) := by
        simp [populateStep, if_neg hc]
      rw [hstep, ih]
      simp [pagesOf, List.append_assoc]

theorem foldl_populateStep_sparse :
    ∀ (regs : List HwMemRegion) (pm : PageMap) (cur : SparseMapEntry),
      ((regs.foldl populateStep (pm, cur)).1).sparse_map
          ++ [(regs.foldl populateStep (pm, cur)).2]
        = pm.sparse_map ++ buildSparse regs cur := by
  intro regs
  induction regs with
  | nil => intro pm cur; simp [buildSparse]
  | cons r rs ih =>
    intro pm cur
    simp only [List.foldl_cons]
    by_cases hc : cur.base_pfn + cur.num_pages ≠ r.base
    · have hstep : populateStep (pm, cur) r =
          ({ pm with
              sparse_map := pm.sparse_map ++ [cur],
              pages := pm.pages ++ List.replicate r.numPages (regionPageInfo r.memType) },
           { base_pfn := r.base, num_pages := 0 + r.numPages,
             page_map_index := cur.page_map_index + cur.num_pages }) := by
        simp [populateStep, if_pos hc]
      rw [hstep, ih]
      simp only [buildSparse, if_neg hc]
      simp [List.append_assoc]
    · have heq : cur.base_pfn + cur.num_pages = r.base := by
        by_contra hx
        exact hc hx
      have hstep : populateStep (pm, cur) r =
          ({ pm with
              pages := pm.pages ++ List.replicate r.numPages (regionPageInfo r.memType) },
           { cur with num_pages := cur.num_pages + r.numPages }) := by
        simp [populateStep, if_neg hc]
      rw [hstep, ih]
      simp [buildSparse, if_pos heq]

theorem populate_from_pages (regs : List HwMemRegion) :
    (PageMap.populate_from regs).pages = pagesOf regs := by
  cases regs with
  | nil => rfl
  | cons r0 rs =>
    show ((((r0 :: rs).foldl populateStep
        (⟨[], []⟩, SparseMapEntry.mk r0.base 0 0)).1).pages : List PageInfo)
      = pagesOf (r0 :: rs)
    rw [foldl_populateStep_pages]
    rfl

theorem populate_from_sparse (r0 : HwMemRegion) (rs : List HwMemRegion) :
    (PageMap.populate_from (r0 :: rs)).sparse_map
      = buildSparse (r0 :: rs) (SparseMapEntry.mk r0.base 0 0) := by
  show (((r0 :: rs).foldl populateStep
        (⟨[], []⟩, SparseMapEntry.mk r0.base 0 0)).1).sparse_map
      ++ [((r0 :: rs).foldl populateStep
        (⟨[], []⟩, SparseMapEntry.mk r0.base 0 0)).2]
    = buildSparse (r0 :: rs) (SparseMapEntry.mk r0.base 0 0)
  rw [foldl_populateStep_sparse]
  rfl

theorem lookupIdx_nil (pfn : Nat) : lookupIdx [] pfn = none := rfl

theorem lookupIdx_cons (e : SparseMapEntry) (rest : List SparseMapEntry) (pfn : Nat) :
    lookupIdx (e :: rest) pfn =
      if e.base_pfn ≤ pfn ∧ pfn < e.base_pfn + e.num_pages then
        some (e.page_map_index + pfn - e.base_pfn)
      else lookupIdx rest pfn := by
  by_cases hc : e.base_pfn ≤ pfn ∧ pfn < e.base_pfn + e.num_pages
  · have hb : (decide (e.base_pfn ≤ pfn) && decide (pfn < e.base_pfn + e.num_pages)) = true := by
      simp [hc.1, hc.2]
    simp [lookupIdx, List.find?_cons_of_pos _ hb, hc]
  · have hb : ¬((decide (e.base_pfn ≤ pfn) && decide (pfn < e.base_pfn + e.num_pages)) = true) := by
      simp only [Bool.and_eq_true, decide_eq_true_eq]
      exact hc
    simp [lookupIdx, List.find?_cons_of_neg _ hb, hc]

theorem lookupIdx_buildSparse :
    ∀ (regs : List HwMemRegion) (cur : SparseMapEntry) (pfn : Nat),
      regionsOrderedFrom (cur.base_pfn + cur.num_pages) regs →
      lookupIdx (buildSparse regs cur) pfn =
        if cur.base_pfn ≤ pfn ∧ pfn < cur.base_pfn + cur.num_pages then
          some (cur.page_map_index + pfn - cur.base_pfn)
        else flatIndexFrom regs (cur.page_map_index + cur.num_pages) pfn := by
  intro regs
  induction regs with
  | nil =>
    intro cur pfn _
    simp only [buildSparse, flatIndexFrom]
    rw [lookupIdx_cons]
    split
    · rfl
    · rfl
  | cons r rs ih =>
    intro cur pfn hord
    obtain ⟨hlo, hrest⟩ := hord
    by_cases hc : cur.base_pfn + cur.num_pages = r.base
    · simp only [buildSparse, if_pos hc]
      have hord2 : regionsOrderedFrom
          (cur.base_pfn + (cur.num_pages + r.numPages)) rs := by
        have harith : cur.base_pfn + (cur.num_pages + r.numPages)
            = r.base + r.numPages := by omega
        rw [harith]
        exact hrest
      rw [ih { cur with num_pages := cur.num_pages + r.numPages } pfn hord2]
      dsimp only
      simp only [flatIndexFrom]
      split_ifs <;>
        first
          | rfl
          | (simp only [Option.some.injEq]; omega)
          | (exfalso; omega)
          | (congr 1; omega)
    · simp only [buildSparse, if_neg hc]
      rw [lookupIdx_cons]
      have hord2 : regionsOrderedFrom
          ((SparseMapEntry.mk r.base r.numPages
            (cur.page_map_index + cur.num_pages)).base_pfn +
           (SparseMapEntry.mk r.base r.numPages
            (cur.page_map_index + cur.num_pages)).num_pages) rs := hrest
      rw [ih (SparseMapEntry.mk r.base r.numPages
        (cur.page_map_index + cur.num_pages)) pfn hord2]
      dsimp only
      simp only [flatIndexFrom]
      split_ifs <;>
        first
          | rfl
          | (simp only [Option.some.injEq]; omega)
          | (exfalso; omega)
          | (congr 1; omega)

theorem flatIndexFrom_shift :
    ∀ (regs : List HwMemRegion) (k pfn : Nat),
      flatIndexFrom regs k pfn = (flatIndexFrom regs 0 pfn).map (k + ·) := by
  intro regs
  induction regs with
  | nil => intro k pfn; rfl
  | cons r rs ih =>
    intro k pfn
    simp only [flatIndexFrom]
    by_cases hc : r.base ≤ pfn ∧ pfn < r.base + r.numPages
    · simp [hc]
    · simp only [if_neg hc]
      rw [ih (k + r.numPages) pfn, ih (0 + r.numPages) pfn]
      cases flatIndexFrom rs 0 pfn with
      | none => rfl
      | some j =>
        simp only [Option.map_some', Option.some.injEq]
        omega

theorem regionsOrderedFrom_mem_le :
    ∀ (regs : List HwMemRegion) (lo : Nat) (r : HwMemRegion),
      regionsOrderedFrom lo regs → r ∈ regs → lo ≤ r.base := by
  intro regs
  induction regs with
  | nil => intro lo r _ hm; simp at hm
  | cons r0 rs ih =>
    intro lo r hord hm
    obtain ⟨h1, h2⟩ := hord
    rcases List.mem_cons.mp hm with rfl | hm2
    · exact h1
    · have := ih (r0.base + r0.numPages) r h2 hm2
      omega

theorem replicate_getElem?_lt {α : Type} (a : α) :
    ∀ (n m : Nat), m < n → (List.replicate n a)[m]? = some a
  | n + 1, 0, _ => by simp [List.replicate_succ]
  | n + 1, m + 1, h => by
    simp only [List.replicate_succ, List.getElem?_cons_succ]
    exact replicate_getElem?_lt a n m (by omega)

theorem getElem?_some_lt {α : Type} {l : List α} {i : Nat} {a : α}
    (h : l[i]? = some a) : i < l.length := by
  by_contra hc
  rw [List.getElem?_eq_none (by omega)] at h
  cases h

theorem flat_mem_pages :
    ∀ (regs : List HwMemRegion) (lo : Nat) (r : HwMemRegion) (pfn : Nat),
      regionsOrderedFrom lo regs → r ∈ regs →
      r.base ≤ pfn → pfn < r.base + r.numPages →
      ∃ j, flatIndexFrom regs 0 pfn = some j ∧
        (pagesOf regs)[j]? = some (regionPageInfo r.memType) := by
  intro regs
  induction regs with
  | nil => intro lo r pfn _ hm _ _; simp at hm
  | cons r0 rs ih =>
    intro lo r pfn hord hm hle hlt
    obtain ⟨h1, h2⟩ := hord
    by_cases hc : r0.base ≤ pfn ∧ pfn < r0.base + r0.numPages
    · have hty : regionPageInfo r.memType = regionPageInfo r0.memType := by
        rcases List.mem_cons.mp hm with rfl | hm2
        · rfl
        · exfalso
          have := regionsOrderedFrom_mem_le rs (r0.base + r0.numPages) r h2 hm2
          omega
      refine ⟨pfn - r0.base, ?_, ?_⟩
      · simp [flatIndexFrom, hc]
      · simp only [pagesOf]
        have hlen : pfn - r0.base
            < (List.replicate r0.numPages (regionPageInfo r0.memType)).length := by
          simp only [List.length_replicate]
          omega
        rw [List.getElem?_append, if_pos hlen, hty]
        exact replicate_getElem?_lt _ r0.numPages (pfn - r0.base) (by simpa using hlen)
    · have hm2 : r ∈ rs := by
        rcases List.mem_cons.mp hm with rfl | hm2
        · exact absurd ⟨hle, hlt⟩ hc
        · exact hm2
      obtain ⟨j, hj, hget⟩ := ih (r0.base + r0.numPages) r pfn h2 hm2 hle hlt
      refine ⟨r0.numPages + j, ?_, ?_⟩
      · simp only [flatIndexFrom, if_neg hc]
        rw [flatIndexFrom_shift, hj]
        simp only [Option.map_some', Option.some.injEq]
        omega
      · simp only [pagesOf]
        rw [List.getElem?_append,
          if_neg (by simp only [List.length_replicate]; omega)]
        simpa using hget

theorem flat_none :
    ∀ (regs : List HwMemRegion) (pfn k : Nat),
      (∀ r ∈ regs, ¬(r.base ≤ pfn ∧ pfn < r.base + r.numPages)) →
      flatIndexFrom regs k pfn = none := by
  intro regs
  induction regs with
  | nil => intro pfn k _; rfl
  | cons r0 rs ih =>
    intro pfn k h
    simp only [flatIndexFrom, if_neg (h r0 (by simp))]
    exact ih pfn _ fun r hr => h r (by simp [hr])

theorem populate_get_map_index (r0 : HwMemRegion) (rs : List HwMemRegion)
    (pfn : Nat) (hord : regionsOrderedFrom 0 (r0 :: rs)) :
    lookupIdx (PageMap.populate_from (r0 :: rs)).sparse_map pfn
      = flatIndexFrom (r0 :: rs) 0 pfn := by
  rw [populate_from_sparse]
  have hord2 : regionsOrderedFrom
      ((SparseMapEntry.mk r0.base 0 0).base_pfn +
       (SparseMapEntry.mk r0.base 0 0).num_pages) (r0 :: rs) := by
    dsimp only
    rw [Nat.add_zero]
    exact ⟨Nat.le_refl _, hord.2⟩
  rw [lookupIdx_buildSparse (r0 :: rs) _ pfn hord2]
  dsimp only
  rw [if_neg (by omega)]

theorem populate_get_of_mem (regs : List HwMemRegion) (r : HwMemRegion)
    (pfn : Nat) (hord : regionsOrderedFrom 0 regs) (hm : r ∈ regs)
    (hle : r.base ≤ pfn) (hlt : pfn < r.base + r.numPages) :
    (PageMap.populate_from regs).get ⟨pfn, PageSize.Size4k⟩
      = some (regionPageInfo r.memType) := by
  cases regs with
  | nil => simp at hm
  | cons r0 rs =>
    obtain ⟨j, hj, hget⟩ := flat_mem_pages (r0 :: rs) 0 r pfn hord hm hle hlt
    have hidx : (PageMap.populate_from (r0 :: rs)).get_map_index
        ⟨pfn, PageSize.Size4k⟩ = some j := by
      show lookupIdx (PageMap.populate_from (r0 :: rs)).sparse_map pfn = some j
      rw [populate_get_map_index r0 rs pfn hord]
      exact hj
    simp only [PageMap.get, PageSize.is_huge, Bool.false_eq_true, if_false, hidx]
    rw [populate_from_pages]
    exact hget

/-- Claim C2: in a `PageMap` populated from any (ordered, non-overlapping)
memory map, every 4 KiB frame of an `Available` region starts `Free`; every
frame of a `Reserved` region of sub-type `HostKernelImage` or
`HostInitramfsImage` starts `Owned` with a depth-1 stack whose owner is the
hypervisor; and every frame of any other `Reserved` region starts
`Reserved`. -/
theorem populate_from_initial_page_states (regs : List HwMemRegion)
    (r : HwMemRegion) (pfn : Nat) (hord : regionsOrderedFrom 0 regs)
    (hmem : r ∈ regs) (hlo : r.base ≤ pfn) (hhi : pfn < r.base + r.numPages) :
    (r.memType = HwMemType.Available →
      (PageMap.populate_from regs).get ⟨pfn, PageSize.Size4k⟩
        = some PageInfo.Free) ∧
    ((r.memType = HwMemType.Reserved HwReservedMemType.HostKernelImage ∨
      r.memType = HwMemType.Reserved HwReservedMemType.HostInitramfsImage) →
      (PageMap.populate_from regs).get ⟨pfn, PageSize.Size4k⟩
        = some (PageInfo.Owned [PageOwnerId.hypervisor])) ∧
    (∀ sub, r.memType = HwMemType.Reserved sub →
      sub ≠ HwReservedMemType.HostKernelImage →
      sub ≠ HwReservedMemType.HostInitramfsImage →
      (PageMap.populate_from regs).get ⟨pfn, PageSize.Size4k⟩
        = some PageInfo.Reserved) := by
  have hmain := populate_get_of_mem regs r pfn hord hmem hlo hhi
  refine ⟨?_, ?_, ?_⟩
  · intro ht
    rw [hmain, ht]
    rfl
  · rintro (ht | ht) <;> rw [hmain, ht] <;> rfl
  · intro sub ht hk hi
    rw [hmain, ht]
    cases sub with
    | FirmwareReserved => rfl
    | HypervisorImage => rfl
    | HostKernelImage => exact absurd rfl hk
    | HostInitramfsImage => exact absurd rfl hi
    | PageMap => rfl

theorem populate_from_initial_page_states_witness :
    regionsOrderedFrom 0 regsW ∧
    (⟨0x10000, 2, .Available⟩ : HwMemRegion) ∈ regsW ∧
    (PageMap.populate_from regsW).get ⟨0x10001, PageSize.Size4k⟩
      = some PageInfo.Free :=
  ⟨by decide, by decide,
   (populate_from_initial_page_states regsW ⟨0x10000, 2, .Available⟩ 0x10001
      (by decide) (by decide) (by decide) (by decide)).1 rfl⟩

/-- Claim C5: in a `PageMap` populated from any (ordered, non-overlapping)
memory map, `get` is defined on every 4 KiB frame address inside any region
and the sparse-map index computed for it is strictly below the length of the
page array; `get` returns `none` on every address strictly outside all
regions; and every lookup at a huge page size returns `none`. -/
theorem page_map_get_contract (regs : List HwMemRegion) (pfn : Nat)
    (hord : regionsOrderedFrom 0 regs) :
    (∀ r ∈ regs, r.base ≤ pfn → pfn < r.base + r.numPages →
      ∃ j, (PageMap.populate_from regs).get_map_index ⟨pfn, PageSize.Size4k⟩
          = some j ∧
        j < (PageMap.populate_from regs).pages.length ∧
        ∃ pi, (PageMap.populate_from regs).get ⟨pfn, PageSize.Size4k⟩
          = some pi) ∧
    ((∀ r ∈ regs, ¬(r.base ≤ pfn ∧ pfn < r.base + r.numPages)) →
      (PageMap.populate_from regs).get ⟨pfn, PageSize.Size4k⟩ = none) ∧
    (∀ (pm : PageMap) (a : SupervisorPageAddr), a.size.is_huge = true →
      pm.get a = none) := by
  refine ⟨?_, ?_, ?_⟩
  · intro r hr hle hlt
    cases regs with
    | nil => simp at hr
    | cons r0 rs =>
      obtain ⟨j, hj, hget⟩ := flat_mem_pages (r0 :: rs) 0 r pfn hord hr hle hlt
      have hidx : (PageMap.populate_from (r0 :: rs)).get_map_index
          ⟨pfn, PageSize.Size4k⟩ = some j := by
        show lookupIdx (PageMap.populate_from (r0 :: rs)).sparse_map pfn = some j
        rw [populate_get_map_index r0 rs pfn hord]
        exact hj
      refine ⟨j, hidx, ?_, regionPageInfo r.memType,
        populate_get_of_mem (r0 :: rs) r pfn hord hr hle hlt⟩
      have := getElem?_some_lt hget
      rwa [populate_from_pages]
  · intro h
    cases regs with
    | nil => rfl
    | cons r0 rs =>
      have hidx : (PageMap.populate_from (r0 :: rs)).get_map_index
          ⟨pfn, PageSize.Size4k⟩ = none := by
        show lookupIdx (PageMap.populate_from (r0 :: rs)).sparse_map pfn = none
        rw [populate_get_map_index r0 rs pfn hord]
        exact flat_none (r0 :: rs) pfn 0 h
      simp only [PageMap.get, PageSize.is_huge, Bool.false_eq_true, if_false,
        hidx]
  · intro pm a h
    simp [PageMap.get, h]

theorem page_map_get_contract_witness :
    PageSize.Size2M.is_huge = true ∧
    pmC1.get ⟨5, PageSize.Size2M⟩ = none :=
  ⟨rfl,
   (page_map_get_contract [] 0 trivial).2.2 pmC1 ⟨5, PageSize.Size2M⟩ rfl⟩

end Salus
